import Mathlib

/-!
# gcalsync: week window, event grouping and artifact publishing

A shallow embedding of `syncSchedule` and `storeSchedule` from `main.go`.

* The Go `time` package is modelled on unbounded integers (its 64-bit fields
  do not overflow for any date within hundreds of billions of years): a `Time`
  is an instant (Unix seconds and nanoseconds) together with a `Location`; the
  calendar fields are the proleptic Gregorian ones of the local clock.
* `time.Parse(time.RFC3339, s)` is a parameter `parse` of the grouping loop, so
  that every general theorem holds for any parser; `parseRFC3339` is a concrete
  instance used to evaluate the code on particular timestamps.
* `log.Fatalf` and run-time panics are the constructors of `Fault`; the
  pointer `currentDay` is an index into `weekData`.
* `groupingLoop` is the loop on events whose pointers are all set;
  `groupingLoopRaw` is the loop on Go's values, nil pointers included. The two
  agree when no pointer is nil (`groupingLoopRaw_present`).
* The filesystem is an explicit map from paths to contents; the outcome of
  every I/O call whose error the program checks or ignores is supplied by `Env`.
-/

namespace Gcalsync

/-! ## The `time` package -/

/-- A time zone: the offset (seconds east of UTC) in force before the first
transition, and the transitions `(instant, offset from then on)` in ascending
order of instant. -/
structure Location where
  base : Int
  tx : List (Int × Int)
deriving DecidableEq, Repr

/-- Offset in force at the instant `u` (Unix seconds). -/
def Location.lookup (l : Location) (u : Int) : Int :=
  l.tx.foldl (fun acc p => if p.1 ≤ u then p.2 else acc) l.base

/-- The zone `time.FixedZone(_, offset)`: one offset for all instants. -/
def FixedZone (offset : Int) : Location := ⟨offset, []⟩

/-- A `time.Time`: an instant and the location its calendar fields are read in. -/
structure Time where
  sec : Int
  nsec : Int
  loc : Location
deriving DecidableEq, Repr

/-- A `time.Duration`, in nanoseconds. -/
abbrev Duration := Int

def Nanosecond : Duration := 1
def Second : Duration := 1000000000
def Hour : Duration := 3600 * Second

/-- Offset of the local clock of `t` at its own instant. -/
def Time.offset (t : Time) : Int := t.loc.lookup t.sec

/-- Seconds of the local clock of `t` since 1970-01-01T00:00:00 local. -/
def Time.abs (t : Time) : Int := t.sec + t.offset

/-- Number of the local calendar day of `t`, counted from 1970-01-01. -/
def Time.localDay (t : Time) : Int := t.abs / 86400

/-- Year of the 400-year era (years starting on 1 March) of day `doe` of the era. -/
def yearOfEra (doe : Int) : Int := (doe - doe / 1460 + doe / 36524 - doe / 146096) / 365

/-- Day of the year starting on 1 March, from 0, of day `doe` of the era. -/
def dayOfYear (doe : Int) : Int :=
  doe - (365 * yearOfEra doe + yearOfEra doe / 4 - yearOfEra doe / 100)

/-- Month (1..12) of day `doy` of the year starting on 1 March. -/
def monthOfDay (doy : Int) : Int :=
  if (5 * doy + 2) / 153 < 10 then (5 * doy + 2) / 153 + 3 else (5 * doy + 2) / 153 - 9

/-- Day of the month (1..31) of day `doy` of the year starting on 1 March. -/
def dayOfMonth (doy : Int) : Int := doy - (153 * ((5 * doy + 2) / 153) + 2) / 5 + 1

/-- Civil date `(year, month, day)` of the day numbered `z` from 1970-01-01 in
the proleptic Gregorian calendar. -/
def civilFromDays (z : Int) : Int × Int × Int :=
  let era := (z + 719468) / 146097
  let doe := (z + 719468) % 146097
  let m := monthOfDay (dayOfYear doe)
  (yearOfEra doe + era * 400 + (if m ≤ 2 then 1 else 0), m, dayOfMonth (dayOfYear doe))

/-- Day number from 1970-01-01 of the civil date `y-m-d` (month in 1..12; the
day may overflow the month, as `time.Date` allows). -/
def daysFromCivil (y m d : Int) : Int :=
  let y := if m ≤ 2 then y - 1 else y
  let era := y / 400
  let yoe := y % 400
  let doy := (153 * (if m > 2 then m - 3 else m + 9) + 2) / 5 + d - 1
  let doe := yoe * 365 + yoe / 4 - yoe / 100 + doy
  era * 146097 + doe - 719468

def Time.Year (t : Time) : Int := (civilFromDays t.localDay).1
def Time.Month (t : Time) : Int := (civilFromDays t.localDay).2.1
def Time.Day (t : Time) : Int := (civilFromDays t.localDay).2.2

/-- The method `Weekday`: Sunday = 0, ..., Saturday = 6 (1970-01-01 was a Thursday). -/
def Time.Weekday (t : Time) : Int := (t.localDay + 4) % 7

def Sunday : Int := 0

def Time.Hour (t : Time) : Int := t.abs % 86400 / 3600
def Time.Minute (t : Time) : Int := t.abs % 3600 / 60

/-- The method `Before`: order of the instants, whatever the locations. -/
def Time.Before (t u : Time) : Bool :=
  decide (t.sec < u.sec ∨ (t.sec = u.sec ∧ t.nsec < u.nsec))

/-- The method `Add`. -/
def Time.Add (t : Time) (d : Duration) : Time :=
  let dsec := Int.tdiv d 1000000000
  let nsec := t.nsec + Int.tmod d 1000000000
  if nsec ≥ 1000000000 then ⟨t.sec + dsec + 1, nsec - 1000000000, t.loc⟩
  else if nsec < 0 then ⟨t.sec + dsec - 1, nsec + 1000000000, t.loc⟩
  else ⟨t.sec + dsec, nsec, t.loc⟩

/-- The function `time.Date`: the instant at which the clock of `loc` shows the
given civil time. The month is normalised into 1..12 and the other fields may
overflow. The offset subtracted is the one `time.Date` settles on: it looks the
zone up at the civil time read as UTC and, when the corrected instant falls
outside that zone span, looks it up again at the corrected instant; either way
the result is the offset in force at the corrected instant. -/
def Date (year month day hour min sec nsec : Int) (loc : Location) : Time :=
  let m := month - 1
  let year := year + m / 12
  let month := m % 12 + 1
  let unix := daysFromCivil year month day * 86400 + hour * 3600 + min * 60 + sec
    + nsec / 1000000000
  let offset := loc.lookup (unix - loc.lookup unix)
  ⟨unix - offset, nsec % 1000000000, loc⟩

/-! ### A concrete RFC 3339 parser -/

def digitVal (c : Char) : Option Int :=
  if c.isDigit then some (Int.ofNat (c.toNat - 48)) else none

/-- Reads exactly `n` decimal digits from the front of `cs`. -/
def takeDigits : Nat → List Char → Int → Option (Int × List Char)
  | 0, cs, acc => some (acc, cs)
  | _ + 1, [], _ => none
  | n + 1, c :: cs, acc =>
    match digitVal c with
    | none => none
    | some v => takeDigits n cs (acc * 10 + v)

/-- Reads an optional fraction of a second (a `.` or `,` and at least one
digit) and returns it in nanoseconds, digits past the ninth being dropped. -/
def takeFraction (cs : List Char) : Option (Int × List Char) :=
  match cs with
  | c :: rest =>
    if c = '.' ∨ c = ',' then
      let ds := rest.takeWhile Char.isDigit
      if ds.isEmpty then none
      else
        let nine := (ds ++ List.replicate 9 '0').take 9
        some (nine.foldl (fun acc d => acc * 10 + Int.ofNat (d.toNat - 48)) 0,
          rest.dropWhile Char.isDigit)
    else some (0, cs)
  | [] => some (0, [])

/-- Reads the hour the way `time.Parse` reads the layout element `15`: two
digits, or a single digit when the next character is not a digit. -/
def takeHour (cs : List Char) : Option (Int × List Char) :=
  match cs with
  | a :: b :: rest =>
    match digitVal a, digitVal b with
    | some x, some y => some (x * 10 + y, rest)
    | some x, none => some (x, b :: rest)
    | none, _ => none
  | [a] =>
    match digitVal a with
    | some x => some (x, [])
    | none => none
  | [] => none

/-- Reads the zone designator: `Z`, or a sign, two digits, `:` and two digits;
nothing may follow it. As in `time.Parse`, the hours may go up to 24 and the
minutes up to 60. Returns the offset in seconds east of UTC. -/
def takeZone (cs : List Char) : Option Int :=
  match cs with
  | ['Z'] => some 0
  | sgn :: rest =>
    if sgn = '+' ∨ sgn = '-' then
      match takeDigits 2 rest 0 with
      | some (hh, ':' :: rest2) =>
        match takeDigits 2 rest2 0 with
        | some (mm, []) =>
          if hh ≤ 24 ∧ mm ≤ 60 then
            some ((if sgn = '-' then -1 else 1) * (hh * 3600 + mm * 60))
          else none
        | _ => none
      | _ => none
    else none
  | [] => none

/-- Number of days of month `m` of year `y`. -/
def daysIn (y m : Int) : Int :=
  if m = 2 then (if y % 4 = 0 ∧ (y % 100 ≠ 0 ∨ y % 400 = 0) then 29 else 28)
  else if m = 4 ∨ m = 6 ∨ m = 9 ∨ m = 11 then 30 else 31

/-- A model of `time.Parse(time.RFC3339, s)` for timestamps of the shape
`YYYY-MM-DDTHH:MM:SS[.fraction](Z|±HH:MM)`; `none` stands for a parse error.
It is as lenient as `time.Parse`: the hour may have one digit and the zone
offset may be as large as `24:60`. The result is read in the fixed zone of the
offset written in the string. -/
def parseRFC3339 (s : String) : Option Time :=
  match takeDigits 4 s.data 0 with
  | some (y, '-' :: r1) =>
    match takeDigits 2 r1 0 with
    | some (mo, '-' :: r2) =>
      match takeDigits 2 r2 0 with
      | some (d, 'T' :: r3) =>
        match takeHour r3 with
        | some (h, ':' :: r4) =>
          match takeDigits 2 r4 0 with
          | some (mi, ':' :: r5) =>
            match takeDigits 2 r5 0 with
            | some (sc, r6) =>
              match takeFraction r6 with
              | some (ns, r7) =>
                match takeZone r7 with
                | some off =>
                  if 1 ≤ mo ∧ mo ≤ 12 ∧ 1 ≤ d ∧ d ≤ daysIn y mo ∧ h ≤ 23 ∧ mi ≤ 59 ∧ sc ≤ 59 then
                    some ⟨daysFromCivil y mo d * 86400 + h * 3600 + mi * 60 + sc - off, ns,
                      FixedZone off⟩
                  else none
                | none => none
              | none => none
            | none => none
          | _ => none
        | _ => none
      | _ => none
    | _ => none
  | _ => none

/-! ## `fmt`, `strings` and `html/template`

Go strings are byte sequences. The characters singled out below (the space and
the six characters that are escaped) are ASCII, and an ASCII byte never occurs
inside a multi-byte UTF-8 sequence, so on UTF-8 text working character by
character gives the same result as working byte by byte. -/

/-- Pads `s` on the left with zeros to `width` characters. -/
def zeroPad (width : Nat) (s : String) : String :=
  ⟨List.replicate (width - s.length) '0'⟩ ++ s

/-- The verb `%0<width>d` of `fmt.Sprintf`: the sign, when there is one, counts
in the width and the zeros follow it. -/
def fmtInt (width : Nat) (n : Int) : String :=
  if n < 0 then "-" ++ zeroPad (width - 1) (Nat.repr n.natAbs)
  else zeroPad width (Nat.repr n.natAbs)

/-- The function `strings.Trim(s, cutset)`: the characters of `cutset` are
removed from the end and from the start of `s`. -/
def Trim (s cutset : String) : String :=
  ⟨(((s.data.reverse.dropWhile (fun c => cutset.data.contains c)).reverse).dropWhile
    (fun c => cutset.data.contains c))⟩

/-- Replacement text of one character in `template.HTMLEscape`. -/
def escapeChar (c : Char) : List Char :=
  if c = Char.ofNat 0 then [Char.ofNat 0xFFFD]
  else if c = '"' then "&#34;".data
  else if c = '\'' then "&#39;".data
  else if c = '&' then "&amp;".data
  else if c = '<' then "&lt;".data
  else if c = '>' then "&gt;".data
  else [c]

/-- The function `template.HTMLEscapeString`. -/
def HTMLEscapeString (s : String) : String :=
  ⟨s.data.flatMap escapeChar⟩

/-! ## The calendar API types -/

structure EventDateTime where
  DateTime : String
deriving DecidableEq, Repr

/-- A `calendar.Event` all of whose pointers are set, with the fields
`storeSchedule` reads. In Go the items, `Start` and `End` are pointers; the
events with missing pointers are `RawEvent` below. -/
structure Event where
  Start : EventDateTime
  End : EventDateTime
  Summary : String
  ColorId : String
deriving DecidableEq, Repr

structure ColorDefinition where
  Background : String
  Foreground : String
deriving DecidableEq, Repr

/-- A `calendar.Colors`: `Event` is the map from colour id to definition, kept
as an association list. -/
structure Colors where
  Event : List (String × ColorDefinition)
deriving DecidableEq, Repr

/-- Indexing of the Go map `colors.Event`: a missing key gives the zero value. -/
def Colors.get (colors : Colors) (id : String) : ColorDefinition :=
  match colors.Event.lookup id with
  | some c => c
  | none => ⟨"", ""⟩

/-! ## `storeSchedule`: the grouping loop -/

structure EventData where
  TimeStart : String
  TimeEnd : String
  MinsStart : Int
  MinsEnd : Int
  Caption : String
  BackgroundColor : String
  ForegroundColor : String
deriving DecidableEq, Repr

structure DayData where
  Caption : String
  ClassSuffix : String
  Events : List EventData
  DayNameShort : String
  DayNum : String
deriving DecidableEq, Repr

def ruWeek : List String :=
  ["Воскресенье", "Понедельник", "Вторник", "Среда", "Четверг", "Пятница", "Суббота",
    "Воскресенье"]

def ruWeekShort : List String := ["вс", "пн", "вт", "ср", "чт", "пт", "сб"]

def weekClassSuffix : List String := ["sun", "mon", "tue", "wed", "thu", "fri", "sat"]

/-- The ways the process can stop inside the loop: `log.Fatalf` on a timestamp
that does not parse, and the run-time panics the loop could raise: an index
out of range, a nil `currentDay`, and a nil pointer in the input (an item, its
`Start`, its `End`, or the colour table). -/
inductive Fault where
  | malformedTimestamp (value : String)
  | indexOutOfRange
  | nilDereference
  | nilInput
deriving DecidableEq, Repr

deriving instance DecidableEq for Except

/-- Slice indexing `xs[i]`, which panics outside `0 ≤ i < len(xs)`. -/
def index (xs : List String) (i : Int) : Except Fault String :=
  if i < 0 then .error .indexOutOfRange
  else match xs.get? i.toNat with
    | some x => .ok x
    | none => .error .indexOutOfRange

/-- The `DayData` literal appended to `weekData` for a start date. -/
def newDay (startDate : Time) : Except Fault DayData :=
  match index ruWeek startDate.Weekday with
  | .error f => .error f
  | .ok name =>
    match index weekClassSuffix startDate.Weekday with
    | .error f => .error f
    | .ok suffix =>
      match index ruWeekShort startDate.Weekday with
      | .error f => .error f
      | .ok short =>
        .ok {
          Caption := name ++ " " ++ fmtInt 2 startDate.Day ++ "." ++ fmtInt 2 startDate.Month
            ++ "." ++ fmtInt 4 startDate.Year
          ClassSuffix := suffix
          Events := []
          DayNameShort := short
          DayNum := fmtInt 2 startDate.Day }

/-- The `EventData` literal appended to `currentDay.Events`. -/
def newEvent (colors : Colors) (startDate endDate : Time) (item : Event) : EventData :=
  { TimeStart := fmtInt 2 startDate.Hour ++ ":" ++ fmtInt 2 startDate.Minute
    TimeEnd := fmtInt 2 endDate.Hour ++ ":" ++ fmtInt 2 endDate.Minute
    MinsStart := startDate.Hour * 60 + startDate.Minute
    MinsEnd := endDate.Hour * 60 + endDate.Minute
    Caption := HTMLEscapeString (Trim item.Summary " ")
    BackgroundColor := (colors.get item.ColorId).Background
    ForegroundColor := (colors.get item.ColorId).Foreground }

/-- The variables of the loop. `currentDay` is a pointer to an element of
`weekData`, kept as the index of that element (`none` is `nil`). -/
structure LoopState where
  weekData : List DayData
  currentDay : Option Nat
  prevWeekDay : Int
deriving DecidableEq, Repr

/-- State before the first iteration. -/
def LoopState.init : LoopState := ⟨[], none, -1⟩

/-- The statement `p.Events = append(p.Events, ev)` for the pointer `p` to
element `i` of `weekData`; `none` when there is no such element. -/
def appendEvent : List DayData → Nat → EventData → Option (List DayData)
  | [], _, _ => none
  | d :: ds, 0, ev => some ({ d with Events := d.Events ++ [ev] } :: ds)
  | d :: ds, i + 1, ev => (appendEvent ds i ev).map (d :: ·)

/-- One iteration of `for _, item := range events.Items`. -/
def loopBody (parse : String → Option Time) (colors : Colors) (filterTime : Time)
    (st : LoopState) (item : Event) : Except Fault LoopState :=
  match parse item.Start.DateTime with
  | none => .error (.malformedTimestamp item.Start.DateTime)
  | some startDate =>
    if startDate.Before filterTime then .ok st
    else
      match parse item.End.DateTime with
      | none => .error (.malformedTimestamp item.End.DateTime)
      | some endDate =>
        let opened : Except Fault LoopState :=
          if st.prevWeekDay ≠ startDate.Weekday then
            match newDay startDate with
            | .error f => .error f
            | .ok day =>
              .ok ⟨st.weekData ++ [day], some ((st.weekData ++ [day]).length - 1),
                startDate.Weekday⟩
          else .ok st
        match opened with
        | .error f => .error f
        | .ok st1 =>
          match st1.currentDay with
          | none => .error .nilDereference
          | some i =>
            match appendEvent st1.weekData i (newEvent colors startDate endDate item) with
            | none => .error .nilDereference
            | some weekData => .ok { st1 with weekData := weekData }

/-- The loop from a given state. -/
def runLoop (parse : String → Option Time) (colors : Colors) (filterTime : Time) :
    LoopState → List Event → Except Fault LoopState
  | st, [] => .ok st
  | st, item :: rest =>
    match loopBody parse colors filterTime st item with
    | .error f => .error f
    | .ok st1 => runLoop parse colors filterTime st1 rest

/-- The grouping loop of `storeSchedule`: the value of `weekData` after the
loop, or the fault that stopped the process. -/
def groupingLoop (parse : String → Option Time) (colors : Colors) (filterTime : Time)
    (items : List Event) : Except Fault (List DayData) :=
  match runLoop parse colors filterTime LoopState.init items with
  | .error f => .error f
  | .ok st => .ok st.weekData

/-! ### The loop with Go's pointers

`events.Items` is a `[]*calendar.Event`, `item.Start` and `item.End` are
`*calendar.EventDateTime`, and `colors` is a `*calendar.Colors`. None of them is
checked against nil before it is dereferenced. -/

/-- A `calendar.Event` as Go holds it: `Start` and `End` may be nil. -/
structure RawEvent where
  Start : Option EventDateTime
  End : Option EventDateTime
  Summary : String
  ColorId : String
deriving DecidableEq, Repr

/-- An event with all pointers set, as Go holds it. -/
def Event.toRaw (e : Event) : RawEvent := ⟨some e.Start, some e.End, e.Summary, e.ColorId⟩

/-- One iteration of `for _, item := range events.Items`, on an item that may
be nil and with a colour table that may be nil. -/
def loopBodyRaw (parse : String → Option Time) (colors : Option Colors) (filterTime : Time)
    (st : LoopState) (item : Option RawEvent) : Except Fault LoopState :=
  match item with
  | none => .error .nilInput
  | some raw =>
    match raw.Start with
    | none => .error .nilInput
    | some start =>
      match parse start.DateTime with
      | none => .error (.malformedTimestamp start.DateTime)
      | some startDate =>
        if startDate.Before filterTime then .ok st
        else
          match raw.End with
          | none => .error .nilInput
          | some stop =>
            match parse stop.DateTime with
            | none => .error (.malformedTimestamp stop.DateTime)
            | some endDate =>
              let opened : Except Fault LoopState :=
                if st.prevWeekDay ≠ startDate.Weekday then
                  match newDay startDate with
                  | .error f => .error f
                  | .ok day =>
                    .ok ⟨st.weekData ++ [day], some ((st.weekData ++ [day]).length - 1),
                      startDate.Weekday⟩
                else .ok st
              match opened with
              | .error f => .error f
              | .ok st1 =>
                match st1.currentDay with
                | none => .error .nilDereference
                | some i =>
                  match colors with
                  | none => .error .nilInput
                  | some table =>
                    match appendEvent st1.weekData i
                        (newEvent table startDate endDate
                          ⟨start, stop, raw.Summary, raw.ColorId⟩) with
                    | none => .error .nilDereference
                    | some weekData => .ok { st1 with weekData := weekData }

/-- The loop with Go's pointers, from a given state. -/
def runLoopRaw (parse : String → Option Time) (colors : Option Colors) (filterTime : Time) :
    LoopState → List (Option RawEvent) → Except Fault LoopState
  | st, [] => .ok st
  | st, item :: rest =>
    match loopBodyRaw parse colors filterTime st item with
    | .error f => .error f
    | .ok st1 => runLoopRaw parse colors filterTime st1 rest

/-- The grouping loop of `storeSchedule` with Go's pointers. -/
def groupingLoopRaw (parse : String → Option Time) (colors : Option Colors)
    (filterTime : Time) (items : List (Option RawEvent)) : Except Fault (List DayData) :=
  match runLoopRaw parse colors filterTime LoopState.init items with
  | .error f => .error f
  | .ok st => .ok st.weekData

/-- No pointer of the input is nil: the colour table, every item, and the
`Start` and `End` of every item. -/
def AllPresent (colors : Option Colors) (items : List (Option RawEvent)) : Prop :=
  colors.isSome = true ∧
    ∀ p ∈ items, p.any (fun raw => raw.Start.isSome && raw.End.isSome) = true

instance (colors : Option Colors) (items : List (Option RawEvent)) :
    Decidable (AllPresent colors items) := by
  unfold AllPresent; infer_instance

/-! ## `syncSchedule`: the week window -/

/-- The pair `(monMidnight, sunMidnight)` that `syncSchedule` computes from
`nw := time.Now()`. -/
def weekWindow (nw : Time) : Time × Time :=
  let weekShift : Int := -1
  let weekShift := if nw.Weekday = Sunday then weekShift * 6 else weekShift * (nw.Weekday - 1)
  let mon := nw.Add (Hour * 24 * weekShift)
  let monMidnight := Date mon.Year mon.Month mon.Day 0 0 0 0 mon.loc
  let sunMidnight := monMidnight.Add (Hour * 24 * 7)
  (monMidnight, sunMidnight)

/-! ## `storeSchedule`: rendering and publishing -/

/-- The filesystem: the content of the file at each path, if there is one. -/
abbrev FS := String → Option String

/-- Sets the content of the file at `path`. -/
def FS.write (fs : FS) (path content : String) : FS :=
  fun p => if p = path then some content else fs p

/-- Moves the file at `old`, when there is one, onto `new`. -/
def FS.rename (fs : FS) (old new : String) : FS :=
  match fs old with
  | none => fs
  | some content => fun p => if p = new then some content else if p = old then none else fs p

/-- What the outside world answers to the calls of `storeSchedule`.
`render part name weekData` stands for `ExecuteTemplate`, `Flush` and `Close`
on the file at `part`: the bytes that reached the file, and whether one of the
three calls returned an error. -/
structure Env where
  parseFiles : Bool
  create : String → Bool
  render : String → String → List DayData → String × Bool
  rename : String → String → Bool

/-- How a run of `storeSchedule` ends. -/
inductive Outcome where
  | completed
  | templatePanic
  | createFailed (path : String)
  | loopFault (f : Fault)
deriving DecidableEq, Repr

/-- The four statements that publish one artifact: `ExecuteTemplate`, `Flush`,
`Close` and `os.Rename`. None of the four returned errors is looked at. -/
def publish (env : Env) (fs : FS) (name : String) (weekData : List DayData) (path : String) :
    FS :=
  let part := path ++ ".part"
  let fs1 := fs.write part (env.render part name weekData).1
  if env.rename part path then fs1.rename part path else fs1

/-- The function `storeSchedule`: the filesystem it leaves and how it ends.
Files are followed by path, not by handle, which is exact when the two
artifact paths and their two `.part` paths are four different paths. -/
def storeSchedule (env : Env) (parse : String → Option Time) (fs : FS) (events : List Event)
    (colors : Colors) (displayChunkPath printChunkPath : String) (filterTime : Time) :
    FS × Outcome :=
  if !env.parseFiles then (fs, .templatePanic)
  else if !env.create (displayChunkPath ++ ".part") then
    (fs, .createFailed (displayChunkPath ++ ".part"))
  else
    let fs1 := fs.write (displayChunkPath ++ ".part") ""
    if !env.create (printChunkPath ++ ".part") then
      (fs1, .createFailed (printChunkPath ++ ".part"))
    else
      let fs2 := fs1.write (printChunkPath ++ ".part") ""
      match groupingLoop parse colors filterTime events with
      | .error f => (fs2, .loopFault f)
      | .ok weekData =>
        let fs3 := publish env fs2 "print.html" weekData printChunkPath
        let fs4 := publish env fs3 "display.html" weekData displayChunkPath
        (fs4, .completed)

/-! ## Vocabulary of the specification -/

/-- An input event that survives the filter, with its two parsed timestamps. -/
structure Entry where
  start : Time
  stop : Time
  item : Event
deriving DecidableEq, Repr

/-- What the loop keeps of one event: nothing when its start does not parse or
is before `filterTime` (or its end does not parse), else the event with its
parsed timestamps. -/
def keep (parse : String → Option Time) (filterTime : Time) (item : Event) : Option Entry :=
  match parse item.Start.DateTime with
  | none => none
  | some s =>
    if s.Before filterTime then none
    else
      match parse item.End.DateTime with
      | none => none
      | some e => some ⟨s, e, item⟩

/-- The surviving events, in input order: those whose start is not before
`filterTime`. -/
def surviving (parse : String → Option Time) (filterTime : Time) (items : List Event) :
    List Entry :=
  items.filterMap (keep parse filterTime)

/-- The `EventView` of a surviving event. -/
def Entry.view (colors : Colors) (e : Entry) : EventData :=
  newEvent colors e.start e.stop e.item

/-- The `DayView` of a start date, without events. -/
def dayHeader (t : Time) : DayData :=
  { Caption := ruWeek.getD t.Weekday.toNat "" ++ " " ++ fmtInt 2 t.Day ++ "." ++ fmtInt 2 t.Month
      ++ "." ++ fmtInt 4 t.Year
    ClassSuffix := weekClassSuffix.getD t.Weekday.toNat ""
    Events := []
    DayNameShort := ruWeekShort.getD t.Weekday.toNat ""
    DayNum := fmtInt 2 t.Day }

/-- The calendar day of a timestamp: year, month and day of its local clock. -/
def calendarDay (t : Time) : Int × Int × Int := (t.Year, t.Month, t.Day)

/-- The first event of every distinct key, in the order the keys are first seen. -/
def firstOfEach {κ : Type} [DecidableEq κ] (key : Time → κ) : List Entry → List Entry
  | [] => []
  | e :: es => e :: (firstOfEach key es).filter (fun f => decide (key f.start ≠ key e.start))

/-- Grouping by a key of the start time, as the specification words it: one
`DayView` per distinct key, in first-seen order, labelled from the first event
of that key and holding all events of that key in their input order. -/
def groupByKey {κ : Type} [DecidableEq κ] (key : Time → κ) (colors : Colors)
    (es : List Entry) : List DayData :=
  (firstOfEach key es).map fun f =>
    { dayHeader f.start with
      Events := (es.filter (fun e => decide (key e.start = key f.start))).map (Entry.view colors) }

/-- One `DayView` per distinct calendar day, in first-seen order. -/
def groupByCalendarDay (colors : Colors) (es : List Entry) : List DayData :=
  groupByKey calendarDay colors es

/-- One `DayView` per distinct start weekday, in first-seen order. -/
def groupByWeekday (colors : Colors) (es : List Entry) : List DayData :=
  groupByKey Time.Weekday colors es

/-- Every start and end timestamp of the input parses. -/
def AllParse (parse : String → Option Time) (items : List Event) : Prop :=
  ∀ item ∈ items, (parse item.Start.DateTime).isSome = true ∧
    (parse item.End.DateTime).isSome = true

/-- Every start timestamp parses, and so does the end timestamp of every event
whose start is not before `filterTime`. -/
def SurvivorsParse (parse : String → Option Time) (filterTime : Time) (items : List Event) :
    Prop :=
  ∀ item ∈ items, (parse item.Start.DateTime).isSome = true ∧
    ((parse item.Start.DateTime).any (fun s => s.Before filterTime) = true ∨
      (parse item.End.DateTime).isSome = true)

/-- Event `b` does not start before event `a` (true when a start does not parse). -/
def inOrder (parse : String → Option Time) (a b : Event) : Bool :=
  match parse a.Start.DateTime, parse b.Start.DateTime with
  | some s, some t => !t.Before s
  | _, _ => true

/-- The input is sorted ascending by start time: no event starts before an
earlier one of the sequence. -/
def SortedByStart (parse : String → Option Time) (items : List Event) : Prop :=
  items.Pairwise fun a b => inOrder parse a b = true

/-- All start timestamps carry the same UTC offset. -/
def SameOffset (parse : String → Option Time) (items : List Event) : Prop :=
  ∃ off : Int, ∀ item ∈ items,
    (parse item.Start.DateTime).all (fun s => decide (s.offset = off)) = true

/-- The start dates of the surviving events lie within seven consecutive
calendar days. -/
def WithinWeek (es : List Entry) : Prop :=
  ∀ a ∈ es, ∀ b ∈ es, b.start.localDay - a.start.localDay < 7

/-! ## A functional reading of the loop -/

/-- Appends an event to the last day of the list. -/
def addToLast : List DayData → EventData → List DayData
  | [], _ => []
  | [d], ev => [{ d with Events := d.Events ++ [ev] }]
  | d :: d2 :: ds, ev => d :: addToLast (d2 :: ds) ev

/-- Effect of one surviving event on `weekData`, given `prevWeekDay`. -/
def place (colors : Colors) (acc : List DayData) (prev : Int) (e : Entry) : List DayData :=
  if prev ≠ e.start.Weekday then
    acc ++ [{ dayHeader e.start with Events := [e.view colors] }]
  else addToLast acc (e.view colors)

/-- Effect of a sequence of surviving events on `weekData`. -/
def placeAll (colors : Colors) : List DayData → Int → List Entry → List DayData
  | acc, _, [] => acc
  | acc, prev, e :: es => placeAll colors (place colors acc prev e) e.start.Weekday es

/-- The invariant of the loop: either nothing has survived yet, or `currentDay`
points at the last element of `weekData` and `prevWeekDay` is a weekday. -/
def LoopState.Inv (st : LoopState) : Prop :=
  st = LoopState.init ∨
    (∃ w d, st.weekData = w ++ [d] ∧ st.currentDay = some w.length ∧
      0 ≤ st.prevWeekDay ∧ st.prevWeekDay ≤ 6)

/-- The event makes the loop stop: its start does not parse, or its start is
not before `filterTime` and its end does not parse. -/
def Malformed (parse : String → Option Time) (filterTime : Time) (item : Event) : Prop :=
  (parse item.Start.DateTime).isSome = false ∨
    ((parse item.Start.DateTime).any (fun s => !s.Before filterTime) = true ∧
      (parse item.End.DateTime).isSome = false)

instance (parse : String → Option Time) (items : List Event) :
    Decidable (AllParse parse items) := by
  unfold AllParse; infer_instance

instance (parse : String → Option Time) (filterTime : Time) (items : List Event) :
    Decidable (SurvivorsParse parse filterTime items) := by
  unfold SurvivorsParse; infer_instance

instance (parse : String → Option Time) (items : List Event) :
    Decidable (SortedByStart parse items) := by
  unfold SortedByStart; infer_instance

instance (es : List Entry) : Decidable (WithinWeek es) := by
  unfold WithinWeek; infer_instance

instance (parse : String → Option Time) (filterTime : Time) (item : Event) :
    Decidable (Malformed parse filterTime item) := by
  unfold Malformed; infer_instance

/-- State after a surviving event. -/
def LoopState.next (colors : Colors) (st : LoopState) (e : Entry) : LoopState :=
  ⟨place colors st.weekData st.prevWeekDay e,
    some ((place colors st.weekData st.prevWeekDay e).length - 1), e.start.Weekday⟩

/-! ## Concrete inputs -/

/-- The colour table of the scenario of the specification. -/
def exColors : Colors := ⟨[("1", ⟨"#fff", "#000"⟩), ("2", ⟨"#000", "#fff"⟩)]⟩

/-- Monday 2019-04-08T00:00:00+03:00, a window start. -/
def exFilterTime : Time := ⟨1554670800, 0, FixedZone 10800⟩

/-- A Monday 09:00 event followed by a Tuesday 14:30 event. -/
def exMonTue : List Event :=
  [⟨⟨"2019-04-08T09:00:00+03:00"⟩, ⟨"2019-04-08T10:00:00+03:00"⟩, "A", "1"⟩,
    ⟨⟨"2019-04-09T14:30:00+03:00"⟩, ⟨"2019-04-09T15:00:00+03:00"⟩, "B", "2"⟩]

/-- Two events on the Mondays of two consecutive weeks. -/
def exTwoMondays : List Event :=
  [⟨⟨"2019-04-08T09:00:00+03:00"⟩, ⟨"2019-04-08T10:00:00+03:00"⟩, "A", "1"⟩,
    ⟨⟨"2019-04-15T09:00:00+03:00"⟩, ⟨"2019-04-15T10:00:00+03:00"⟩, "B", "2"⟩]

/-- A Monday, the Tuesday after it and the Monday after that. -/
def exMonTueMon : List Event :=
  [⟨⟨"2019-04-08T09:00:00+03:00"⟩, ⟨"2019-04-08T10:00:00+03:00"⟩, "A", "1"⟩,
    ⟨⟨"2019-04-09T14:30:00+03:00"⟩, ⟨"2019-04-09T15:00:00+03:00"⟩, "B", "2"⟩,
    ⟨⟨"2019-04-15T09:00:00+03:00"⟩, ⟨"2019-04-15T10:00:00+03:00"⟩, "C", "1"⟩]

/-- An event that starts one day before the window start and ends inside the
window, followed by a Monday event. -/
def exEarly : List Event :=
  [⟨⟨"2019-04-07T00:00:00+03:00"⟩, ⟨"2019-04-08T01:00:00+03:00"⟩, "long show", "1"⟩,
    ⟨⟨"2019-04-08T09:00:00+03:00"⟩, ⟨"2019-04-08T10:00:00+03:00"⟩, "A", "1"⟩]

/-- An event that starts before the window and whose end timestamp is not a
timestamp. -/
def exBadEnd : List Event :=
  [⟨⟨"2019-04-07T09:00:00+03:00"⟩, ⟨"garbage"⟩, "A", "1"⟩]

/-- A Monday event inside the window whose end timestamp is not a timestamp. -/
def exBadEndKept : List Event :=
  [⟨⟨"2019-04-08T09:00:00+03:00"⟩, ⟨"garbage"⟩, "A", "1"⟩]

/-- A filesystem holding an earlier run's two artifacts. -/
def exFS : FS := fun p =>
  if p = "out/print.html" then some "old print"
  else if p = "out/display.html" then some "old display"
  else none

/-- A world in which every call succeeds and a template renders to the number
of days it is given. -/
def exEnv : Env :=
  { parseFiles := true
    create := fun _ => true
    render := fun _ name weekData => (name ++ ":" ++ Nat.repr weekData.length, false)
    rename := fun _ _ => true }

/-- The test of the filter as a predicate on input events: the start parses and
is not before `filterTime`. -/
def startsInWindow (parse : String → Option Time) (filterTime : Time) (item : Event) : Bool :=
  (parse item.Start.DateTime).any (fun s => !s.Before filterTime)

/-- What follows the `&` in each entity that `template.HTMLEscape` writes. -/
def entityTails : List (List Char) :=
  ["amp;".data, "lt;".data, "gt;".data, "#34;".data, "#39;".data]

/-- Every `&` of the text is followed by the rest of an escape entity. -/
def ampsBeginEntities : List Char → Bool
  | [] => true
  | c :: rest =>
    (c != '&' || entityTails.any (fun t => t.isPrefixOf rest)) && ampsBeginEntities rest

/-- A Monday event whose title has spaces around it. -/
def exTeamSync : List Event :=
  [⟨⟨"2019-04-08T09:00:00+03:00"⟩, ⟨"2019-04-08T10:00:00+03:00"⟩, "  Team Sync  ", "1"⟩]

/-- The zone America/New_York around 2019: standard time (UTC-5), daylight time
(UTC-4) from 2019-03-10T07:00:00Z, standard time again from 2019-11-03T06:00:00Z. -/
def newYork : Location := ⟨-18000, [(1552201200, -14400), (1572760800, -18000)]⟩

/-- Sunday 2019-11-03 23:30:00 in New York, the evening after the clocks went back. -/
def exSundayNight : Time := ⟨1572841800, 0, newYork⟩

/-- Sunday 2019-11-03 12:00:00 in New York, the same day at noon. -/
def exSundayNoon : Time := ⟨1572800400, 0, newYork⟩

/-- A world in which the write of the print artifact fails (say the disk is
full): nothing reaches the temporary file and an error is returned. -/
def exEnvWriteFails : Env :=
  { parseFiles := true
    create := fun _ => true
    render := fun part name weekData =>
      if part = "out/print.html.part" then ("", true)
      else (name ++ ":" ++ Nat.repr weekData.length, false)
    rename := fun _ _ => true }

/-- Three events in ascending order of instant whose timestamps carry two
different UTC offsets: Tuesday 01:00 at +03:00, Monday 23:30 at +00:00 and
Tuesday 03:00 at +03:00. -/
def exMixedOffsets : List Event :=
  [⟨⟨"2019-04-09T01:00:00+03:00"⟩, ⟨"2019-04-09T02:00:00+03:00"⟩, "B", "2"⟩,
    ⟨⟨"2019-04-08T23:30:00+00:00"⟩, ⟨"2019-04-08T23:45:00+00:00"⟩, "A", "1"⟩,
    ⟨⟨"2019-04-09T03:00:00+03:00"⟩, ⟨"2019-04-09T04:00:00+03:00"⟩, "C", "2"⟩]

/-- Events `a` and `b` are the same, or differ only in the end timestamp while
their common start is before `filterTime`. -/
def SameButFilteredEnd (parse : String → Option Time) (filterTime : Time) (a b : Event) : Prop :=
  a = b ∨ (a.Start = b.Start ∧ a.Summary = b.Summary ∧ a.ColorId = b.ColorId ∧
    (parse a.Start.DateTime).any (fun s => s.Before filterTime) = true)

/-- An input whose only item has no `Start` and no `End`. -/
def exNilStart : List (Option RawEvent) := [some ⟨none, none, "A", "1"⟩]

/-! ## Facts about the `time` model -/

theorem weekday_range (t : Time) : 0 ≤ t.Weekday ∧ t.Weekday ≤ 6 := by
  unfold Time.Weekday; omega

theorem hour_range (t : Time) : 0 ≤ t.Hour ∧ t.Hour ≤ 23 := by
  unfold Time.Hour; omega

theorem minute_range (t : Time) : 0 ≤ t.Minute ∧ t.Minute ≤ 59 := by
  unfold Time.Minute; omega

theorem index_ok (xs : List String) (i : Int) (h0 : 0 ≤ i) (h1 : i.toNat < xs.length) :
    index xs i = .ok (xs.getD i.toNat "") := by
  unfold index
  rw [if_neg (by omega)]
  have h : xs.get? i.toNat = some (xs.getD i.toNat "") := by
    simp [List.getD, List.getElem?_eq_getElem h1]
  rw [h]

theorem newDay_eq (t : Time) : newDay t = .ok (dayHeader t) := by
  have h := weekday_range t
  have h8 : t.Weekday.toNat < ruWeek.length := by
    have : ruWeek.length = 8 := rfl
    omega
  have h7 : t.Weekday.toNat < weekClassSuffix.length := by
    have : weekClassSuffix.length = 7 := rfl
    omega
  have h7s : t.Weekday.toNat < ruWeekShort.length := by
    have : ruWeekShort.length = 7 := rfl
    omega
  simp only [newDay, index_ok _ _ h.1 h8, index_ok _ _ h.1 h7, index_ok _ _ h.1 h7s, dayHeader]

/-! ## The loop and its functional reading -/

theorem appendEvent_last (w : List DayData) (d : DayData) (ev : EventData) :
    appendEvent (w ++ [d]) w.length ev = some (w ++ [{ d with Events := d.Events ++ [ev] }]) := by
  induction w with
  | nil => rfl
  | cons x w ih => simp [appendEvent, ih]

theorem addToLast_snoc (w : List DayData) (d : DayData) (ev : EventData) :
    addToLast (w ++ [d]) ev = w ++ [{ d with Events := d.Events ++ [ev] }] := by
  induction w with
  | nil => rfl
  | cons x w ih =>
    cases w with
    | nil => rfl
    | cons y w => simpa [addToLast] using ih

theorem loopBody_skip (parse : String → Option Time) (colors : Colors) (filterTime : Time)
    (st : LoopState) (item : Event) (s : Time) (hs : parse item.Start.DateTime = some s)
    (hb : s.Before filterTime = true) :
    loopBody parse colors filterTime st item = .ok st := by
  simp [loopBody, hs, hb]

theorem loopBody_badStart (parse : String → Option Time) (colors : Colors) (filterTime : Time)
    (st : LoopState) (item : Event) (hs : parse item.Start.DateTime = none) :
    loopBody parse colors filterTime st item =
      .error (.malformedTimestamp item.Start.DateTime) := by
  simp [loopBody, hs]

theorem loopBody_badEnd (parse : String → Option Time) (colors : Colors) (filterTime : Time)
    (st : LoopState) (item : Event) (s : Time) (hs : parse item.Start.DateTime = some s)
    (hb : s.Before filterTime = false) (he : parse item.End.DateTime = none) :
    loopBody parse colors filterTime st item =
      .error (.malformedTimestamp item.End.DateTime) := by
  simp [loopBody, hs, hb, he]

theorem loopBody_survivor (parse : String → Option Time) (colors : Colors) (filterTime : Time)
    (st : LoopState) (item : Event) (s e : Time) (hs : parse item.Start.DateTime = some s)
    (hb : s.Before filterTime = false) (he : parse item.End.DateTime = some e)
    (hinv : st.Inv) :
    loopBody parse colors filterTime st item = .ok (st.next colors ⟨s, e, item⟩) ∧
      (st.next colors ⟨s, e, item⟩).Inv := by
  have hw := weekday_range s
  rcases hinv with h | ⟨w, d, hwd, hcur, hp0, hp1⟩
  · subst h
    have hne : (-1 : Int) ≠ s.Weekday := by omega
    constructor
    · simp [loopBody, hs, hb, he, LoopState.init, hne, newDay_eq, appendEvent, LoopState.next,
        place, Entry.view, dayHeader]
    · right
      refine ⟨[], { dayHeader s with Events := [newEvent colors s e item] }, ?_, ?_, hw.1, hw.2⟩
      · simp [LoopState.next, place, LoopState.init, hne, Entry.view]
      · simp [LoopState.next, place, LoopState.init, hne]
  · obtain ⟨weekData, currentDay, prevWeekDay⟩ := st
    simp only at hwd hcur hp0 hp1
    subst hwd hcur
    by_cases hne : prevWeekDay = s.Weekday
    · constructor
      · simp [loopBody, hs, hb, he, hne, appendEvent_last, LoopState.next, place, Entry.view,
          addToLast_snoc]
      · right
        refine ⟨w, { d with Events := d.Events ++ [newEvent colors s e item] }, ?_, ?_, hw.1, hw.2⟩
        · simp [LoopState.next, place, hne, Entry.view, addToLast_snoc]
        · simp [LoopState.next, place, hne, addToLast_snoc]
    · constructor
      · have h2 : appendEvent (w ++ [d, dayHeader s]) (w.length + 1) (newEvent colors s e item)
            = some (w ++ [d, { dayHeader s with Events := [newEvent colors s e item] }]) := by
          have h3 := appendEvent_last (w ++ [d]) (dayHeader s) (newEvent colors s e item)
          simpa [dayHeader] using h3
        simp [loopBody, hs, hb, he, hne, newDay_eq, LoopState.next, place, Entry.view, h2]
      · right
        refine ⟨w ++ [d], { dayHeader s with Events := [newEvent colors s e item] }, ?_, ?_,
          hw.1, hw.2⟩
        · simp [LoopState.next, place, hne, Entry.view]
        · simp [LoopState.next, place, hne]

theorem surviving_cons_skip (parse : String → Option Time) (filterTime : Time) (item : Event)
    (rest : List Event) (s : Time) (hs : parse item.Start.DateTime = some s)
    (hb : s.Before filterTime = true) :
    surviving parse filterTime (item :: rest) = surviving parse filterTime rest := by
  simp [surviving, keep, hs, hb]

theorem surviving_cons_keep (parse : String → Option Time) (filterTime : Time) (item : Event)
    (rest : List Event) (s e : Time) (hs : parse item.Start.DateTime = some s)
    (hb : s.Before filterTime = false) (he : parse item.End.DateTime = some e) :
    surviving parse filterTime (item :: rest) = ⟨s, e, item⟩ :: surviving parse filterTime rest := by
  simp [surviving, keep, hs, hb, he]

theorem init_inv : LoopState.init.Inv := Or.inl rfl

theorem survivorsParse_elim (parse : String → Option Time) (filterTime : Time) (item : Event)
    (h : (parse item.Start.DateTime).isSome = true ∧
      ((parse item.Start.DateTime).any (fun s => s.Before filterTime) = true ∨
        (parse item.End.DateTime).isSome = true)) :
    ∃ s, parse item.Start.DateTime = some s ∧
      (s.Before filterTime = false → ∃ e, parse item.End.DateTime = some e) := by
  obtain ⟨h1, h2⟩ := h
  obtain ⟨s, hs⟩ := Option.isSome_iff_exists.mp h1
  refine ⟨s, hs, fun hb => ?_⟩
  rcases h2 with h2 | h2
  · simp [hs, hb] at h2
  · exact Option.isSome_iff_exists.mp h2

/-- When every timestamp the loop reads parses, the loop ends normally, the
invariant holds at the end, and `weekData` is the functional reading of the
surviving events. -/
theorem runLoop_ok (parse : String → Option Time) (colors : Colors) (filterTime : Time) :
    ∀ (items : List Event) (st : LoopState), st.Inv → SurvivorsParse parse filterTime items →
      ∃ st1, runLoop parse colors filterTime st items = .ok st1 ∧ st1.Inv ∧
        st1.weekData =
          placeAll colors st.weekData st.prevWeekDay (surviving parse filterTime items) := by
  intro items
  induction items with
  | nil =>
    intro st hinv _
    exact ⟨st, rfl, hinv, rfl⟩
  | cons item rest ih =>
    intro st hinv hp
    have hrest : SurvivorsParse parse filterTime rest :=
      fun x hx => hp x (List.mem_cons_of_mem _ hx)
    obtain ⟨s, hs, hend⟩ := survivorsParse_elim parse filterTime item
      (hp item (List.mem_cons_self _ _))
    cases hb : s.Before filterTime with
    | true =>
      obtain ⟨st1, h1, h2, h3⟩ := ih st hinv hrest
      refine ⟨st1, ?_, h2, ?_⟩
      · simp only [runLoop, loopBody_skip parse colors filterTime st item s hs hb]
        exact h1
      · rw [surviving_cons_skip parse filterTime item rest s hs hb]
        exact h3
    | false =>
      obtain ⟨e, he⟩ := hend hb
      obtain ⟨hbody, hinv1⟩ := loopBody_survivor parse colors filterTime st item s e hs hb he hinv
      obtain ⟨st1, h1, h2, h3⟩ := ih _ hinv1 hrest
      refine ⟨st1, ?_, h2, ?_⟩
      · simp only [runLoop, hbody]
        exact h1
      · rw [surviving_cons_keep parse filterTime item rest s e hs hb he]
        exact h3

theorem groupingLoop_ok (parse : String → Option Time) (colors : Colors) (filterTime : Time)
    (items : List Event) (hp : SurvivorsParse parse filterTime items) :
    groupingLoop parse colors filterTime items =
      .ok (placeAll colors [] (-1) (surviving parse filterTime items)) := by
  obtain ⟨st1, h1, _, h3⟩ := runLoop_ok parse colors filterTime items LoopState.init init_inv hp
  simp only [groupingLoop, h1, h3]
  rfl

theorem allParse_survivorsParse (parse : String → Option Time) (filterTime : Time)
    (items : List Event) (h : AllParse parse items) : SurvivorsParse parse filterTime items := by
  intro item hi
  exact ⟨(h item hi).1, Or.inr (h item hi).2⟩

/-! ## Properties of the functional reading -/

theorem place_ne_nil (colors : Colors) (acc : List DayData) (prev : Int) (e : Entry)
    (h : acc = [] → prev < 0) : place colors acc prev e ≠ [] := by
  unfold place
  have hw := weekday_range e.start
  split_ifs with hne
  · simp
  · have hacc : acc ≠ [] := fun h0 => by have := h h0; omega
    rcases List.eq_nil_or_concat acc with h0 | ⟨w, d, h1⟩
    · exact absurd h0 hacc
    · subst h1
      simp [List.concat_eq_append, addToLast_snoc]

theorem place_flatMap (colors : Colors) (acc : List DayData) (prev : Int) (e : Entry)
    (h : acc = [] → prev < 0) :
    (place colors acc prev e).flatMap DayData.Events =
      acc.flatMap DayData.Events ++ [e.view colors] := by
  unfold place
  have hw := weekday_range e.start
  split_ifs with hne
  · simp [List.flatMap_append]
  · have hacc : acc ≠ [] := fun h0 => by have := h h0; omega
    rcases List.eq_nil_or_concat acc with h0 | ⟨w, d, h1⟩
    · exact absurd h0 hacc
    · subst h1
      simp [List.concat_eq_append, addToLast_snoc, List.flatMap_append]

theorem placeAll_flatMap (colors : Colors) :
    ∀ (es : List Entry) (acc : List DayData) (prev : Int), (acc = [] → prev < 0) →
      (placeAll colors acc prev es).flatMap DayData.Events =
        acc.flatMap DayData.Events ++ es.map (Entry.view colors) := by
  intro es
  induction es with
  | nil => intro acc prev _; simp [placeAll]
  | cons e es ih =>
    intro acc prev h
    have hne := place_ne_nil colors acc prev e h
    rw [placeAll, ih _ _ (fun h0 => absurd h0 hne), place_flatMap colors acc prev e h]
    simp

theorem place_events_ne_nil (colors : Colors) (acc : List DayData) (prev : Int) (e : Entry)
    (h : ∀ dv ∈ acc, dv.Events ≠ []) : ∀ dv ∈ place colors acc prev e, dv.Events ≠ [] := by
  unfold place
  split_ifs with hne
  · intro dv hdv
    rcases List.mem_append.mp hdv with h1 | h1
    · exact h dv h1
    · simp only [List.mem_singleton] at h1
      subst h1
      simp
  · rcases List.eq_nil_or_concat acc with h0 | ⟨w, d, h1⟩
    · subst h0
      simp [addToLast]
    · subst h1
      rw [List.concat_eq_append, addToLast_snoc]
      intro dv hdv
      rcases List.mem_append.mp hdv with h1 | h1
      · exact h dv (by simp [h1])
      · simp only [List.mem_singleton] at h1
        subst h1
        simp

theorem placeAll_events_ne_nil (colors : Colors) :
    ∀ (es : List Entry) (acc : List DayData) (prev : Int), (∀ dv ∈ acc, dv.Events ≠ []) →
      ∀ dv ∈ placeAll colors acc prev es, dv.Events ≠ [] := by
  intro es
  induction es with
  | nil => intro acc prev h; simpa [placeAll] using h
  | cons e es ih =>
    intro acc prev h
    rw [placeAll]
    exact ih _ _ (place_events_ne_nil colors acc prev e h)

/-! ## Grouping by a key -/

section Keys

variable {κ : Type} [DecidableEq κ] (key : Time → κ)

theorem firstOfEach_subset : ∀ (es : List Entry) (f : Entry), f ∈ firstOfEach key es → f ∈ es := by
  intro es
  induction es with
  | nil => intro f hf; simp [firstOfEach] at hf
  | cons e es ih =>
    intro f hf
    simp only [firstOfEach, List.mem_cons, List.mem_filter] at hf
    rcases hf with h | ⟨h, _⟩
    · exact h ▸ List.mem_cons_self _ _
    · exact List.mem_cons_of_mem _ (ih f h)

theorem firstOfEach_snoc_new : ∀ (es : List Entry) (e : Entry),
    (∀ x ∈ es, key x.start ≠ key e.start) →
      firstOfEach key (es ++ [e]) = firstOfEach key es ++ [e] := by
  intro es
  induction es with
  | nil => intro e _; simp [firstOfEach]
  | cons a es ih =>
    intro e h
    have ha : key e.start ≠ key a.start := fun h0 => h a (List.mem_cons_self _ _) h0.symm
    have hes : ∀ x ∈ es, key x.start ≠ key e.start := fun x hx => h x (List.mem_cons_of_mem _ hx)
    have hc : firstOfEach key (a :: es ++ [e]) =
        a :: (firstOfEach key (es ++ [e])).filter (fun f => decide (key f.start ≠ key a.start)) :=
      rfl
    rw [hc, ih e hes, List.filter_append]
    simp [firstOfEach, ha]

theorem firstOfEach_snoc_old : ∀ (es : List Entry) (e : Entry),
    (∃ x ∈ es, key x.start = key e.start) →
      firstOfEach key (es ++ [e]) = firstOfEach key es := by
  intro es
  induction es with
  | nil => intro e h; obtain ⟨x, hx, _⟩ := h; simp at hx
  | cons a es ih =>
    intro e h
    by_cases hes : ∃ x ∈ es, key x.start = key e.start
    · have hc : firstOfEach key (a :: es ++ [e]) =
          a :: (firstOfEach key (es ++ [e])).filter
            (fun f => decide (key f.start ≠ key a.start)) := rfl
      rw [hc, ih e hes]
      rfl
    · have hes2 : ∀ x ∈ es, key x.start ≠ key e.start := fun x hx h0 => hes ⟨x, hx, h0⟩
      have ha : key e.start = key a.start := by
        obtain ⟨x, hx, hk⟩ := h
        rcases List.mem_cons.mp hx with h1 | h1
        · rw [← hk, h1]
        · exact absurd hk (hes2 x h1)
      have hc : firstOfEach key (a :: es ++ [e]) =
          a :: (firstOfEach key (es ++ [e])).filter
            (fun f => decide (key f.start ≠ key a.start)) := rfl
      rw [hc, firstOfEach_snoc_new key es e hes2, List.filter_append]
      simp [firstOfEach, ha]

theorem groupByKey_snoc_new (colors : Colors) (es : List Entry) (e : Entry)
    (h : ∀ x ∈ es, key x.start ≠ key e.start) :
    groupByKey key colors (es ++ [e]) =
      groupByKey key colors es ++ [{ dayHeader e.start with Events := [e.view colors] }] := by
  unfold groupByKey
  rw [firstOfEach_snoc_new key es e h, List.map_append]
  congr 1
  · apply List.map_congr_left
    intro f hf
    have hfe : key e.start ≠ key f.start :=
      fun h0 => h f (firstOfEach_subset key es f hf) h0.symm
    simp [List.filter_append, hfe]
  · have h0 : es.filter (fun x => decide (key x.start = key e.start)) = [] := by
      rw [List.filter_eq_nil_iff]
      intro x hx
      simpa using h x hx
    simp [List.filter_append, h0]

theorem groupByKey_snoc_old (colors : Colors) (es : List Entry) (e : Entry)
    (fs : List Entry) (f0 : Entry) (hfs : firstOfEach key es = fs ++ [f0])
    (h0 : key f0.start = key e.start) (hne : ∀ f ∈ fs, key f.start ≠ key e.start) :
    groupByKey key colors (es ++ [e]) = addToLast (groupByKey key colors es) (e.view colors) := by
  have hmem : f0 ∈ es := firstOfEach_subset key es f0 (by rw [hfs]; simp)
  unfold groupByKey
  rw [firstOfEach_snoc_old key es e ⟨f0, hmem, h0⟩, hfs, List.map_append, List.map_append,
    List.map_singleton, List.map_singleton, addToLast_snoc]
  congr 1
  · apply List.map_congr_left
    intro f hf
    have hfe : key e.start ≠ key f.start := fun h1 => hne f hf h1.symm
    simp [List.filter_append, hfe]
  · simp [List.filter_append, h0]

theorem firstOfEach_congr {κ2 : Type} [DecidableEq κ2] (key2 : Time → κ2) :
    ∀ (es : List Entry),
      (∀ a ∈ es, ∀ b ∈ es, (key a.start = key b.start ↔ key2 a.start = key2 b.start)) →
      firstOfEach key es = firstOfEach key2 es := by
  intro es
  induction es with
  | nil => intro _; rfl
  | cons e es ih =>
    intro h
    have hes : ∀ a ∈ es, ∀ b ∈ es, (key a.start = key b.start ↔ key2 a.start = key2 b.start) :=
      fun a ha b hb => h a (List.mem_cons_of_mem _ ha) b (List.mem_cons_of_mem _ hb)
    simp only [firstOfEach, ← ih hes]
    congr 1
    apply List.filter_congr
    intro f hf
    have hfes : f ∈ es := firstOfEach_subset key es f hf
    have := h f (List.mem_cons_of_mem _ hfes) e (List.mem_cons_self _ _)
    simp [this]

theorem groupByKey_congr {κ2 : Type} [DecidableEq κ2] (key2 : Time → κ2) (colors : Colors)
    (es : List Entry)
    (h : ∀ a ∈ es, ∀ b ∈ es, (key a.start = key b.start ↔ key2 a.start = key2 b.start)) :
    groupByKey key colors es = groupByKey key2 colors es := by
  unfold groupByKey
  rw [← firstOfEach_congr key key2 es h]
  apply List.map_congr_left
  intro f hf
  have hfes : f ∈ es := firstOfEach_subset key es f hf
  have hfil : es.filter (fun x => decide (key x.start = key f.start)) =
      es.filter (fun x => decide (key2 x.start = key2 f.start)) := by
    apply List.filter_congr
    intro x hx
    have := h x hx f hfes
    simp [this]
  rw [hfil]

end Keys

/-! ## The loop groups by calendar day when the days are in order -/

theorem placeAll_snoc (colors : Colors) :
    ∀ (es : List Entry) (acc : List DayData) (prev : Int) (l e : Entry),
      placeAll colors acc prev (es ++ [l] ++ [e]) =
        place colors (placeAll colors acc prev (es ++ [l])) l.start.Weekday e := by
  intro es
  induction es with
  | nil => intro acc prev l e; rfl
  | cons a es ih =>
    intro acc prev l e
    simp only [List.cons_append, placeAll]
    exact ih _ _ l e

theorem firstOfEach_last :
    ∀ (es : List Entry) (l : Entry),
      (es ++ [l]).Pairwise (fun a b => a.start.localDay ≤ b.start.localDay) →
      ∃ fs f0, firstOfEach Time.localDay (es ++ [l]) = fs ++ [f0] ∧
        f0.start.localDay = l.start.localDay ∧ ∀ f ∈ fs, f.start.localDay ≠ l.start.localDay := by
  intro es
  induction es using List.reverseRecOn with
  | nil =>
    intro l _
    exact ⟨[], l, by simp [firstOfEach], rfl, by simp⟩
  | append_singleton es m ih =>
    intro l hs
    obtain ⟨hs1, -, hs2⟩ := List.pairwise_append.mp hs
    have hml : m.start.localDay ≤ l.start.localDay := hs2 m (by simp) l (by simp)
    by_cases hk : m.start.localDay = l.start.localDay
    · obtain ⟨fs, f0, h1, h2, h3⟩ := ih m hs1
      refine ⟨fs, f0, ?_, by rw [h2, hk], fun f hf => by rw [← hk]; exact h3 f hf⟩
      rw [firstOfEach_snoc_old Time.localDay (es ++ [m]) l ⟨m, by simp, hk⟩, h1]
    · have hlt : ∀ x ∈ es ++ [m], x.start.localDay ≠ l.start.localDay := by
        intro x hx
        obtain ⟨-, -, hs3⟩ := List.pairwise_append.mp hs1
        rcases List.mem_append.mp hx with h1 | h1
        · have := hs3 x h1 m (by simp)
          omega
        · simp only [List.mem_singleton] at h1
          subst h1
          exact hk
      refine ⟨firstOfEach Time.localDay (es ++ [m]), l, ?_, rfl, ?_⟩
      · exact firstOfEach_snoc_new Time.localDay (es ++ [m]) l hlt
      · intro f hf
        exact hlt f (firstOfEach_subset Time.localDay (es ++ [m]) f hf)

theorem placeAll_eq_groupByDay (colors : Colors) :
    ∀ (es : List Entry),
      es.Pairwise (fun a b => a.start.localDay ≤ b.start.localDay) → WithinWeek es →
      placeAll colors [] (-1) es = groupByKey Time.localDay colors es := by
  intro es
  induction es using List.reverseRecOn with
  | nil => intro _ _; rfl
  | append_singleton es e ih =>
    intro hs hw
    obtain ⟨hs1, -, hs2⟩ := List.pairwise_append.mp hs
    have hw1 : WithinWeek es :=
      fun a ha b hb => hw a (List.mem_append_left _ ha) b (List.mem_append_left _ hb)
    have ih1 := ih hs1 hw1
    rcases List.eq_nil_or_concat es with h0 | ⟨es0, l, h1⟩
    · subst h0
      have hwd := weekday_range e.start
      have hne : (-1 : Int) ≠ e.start.Weekday := by omega
      simp [placeAll, place, hne, groupByKey, firstOfEach]
    · rw [List.concat_eq_append] at h1
      subst h1
      rw [placeAll_snoc, ih1]
      have hle : l.start.localDay ≤ e.start.localDay := hs2 l (by simp) e (by simp)
      by_cases hk : l.start.localDay = e.start.localDay
      · have hwd : l.start.Weekday = e.start.Weekday := by
          unfold Time.Weekday; rw [hk]
        obtain ⟨fs, f0, h1, h2, h3⟩ := firstOfEach_last es0 l hs1
        rw [groupByKey_snoc_old Time.localDay colors (es0 ++ [l]) e fs f0 h1 (by rw [h2, hk])
          (fun f hf => by rw [← hk]; exact h3 f hf)]
        simp [place, hwd]
      · have h7 := hw l (by simp) e (by simp)
        have hwd : l.start.Weekday ≠ e.start.Weekday := by
          unfold Time.Weekday; omega
        have hnew : ∀ x ∈ es0 ++ [l], x.start.localDay ≠ e.start.localDay := by
          intro x hx
          obtain ⟨-, -, hs3⟩ := List.pairwise_append.mp hs1
          rcases List.mem_append.mp hx with h1 | h1
          · have := hs3 x h1 l (by simp)
            omega
          · simp only [List.mem_singleton] at h1
            subst h1
            exact hk
        rw [groupByKey_snoc_new Time.localDay colors (es0 ++ [l]) e hnew]
        simp [place, hwd]

/-! ## The calendar: a day number and its civil date determine each other -/

theorem yearOfEra_of_parts (doe cc q yy doy : Int)
    (hcc : 0 ≤ cc ∧ cc ≤ 3) (hq : 0 ≤ q ∧ q ≤ 24) (hyy : 0 ≤ yy ∧ yy ≤ 3)
    (hdoy : 0 ≤ doy ∧ doy ≤ 365) (h365 : doy = 365 → yy = 3 ∧ (q < 24 ∨ cc = 3))
    (hdoe : doe = 36524 * cc + 1461 * q + 365 * yy + doy) :
    yearOfEra doe = 100 * cc + 4 * q + yy := by
  unfold yearOfEra
  have hc : cc = 0 ∨ cc = 1 ∨ cc = 2 ∨ cc = 3 := by omega
  have hy : yy = 0 ∨ yy = 1 ∨ yy = 2 ∨ yy = 3 := by omega
  have h1 : doe / 36524 - doe / 146096 = cc := by
    rcases hc with h | h | h | h <;> omega
  have h3 : doe / 1460 = 25 * cc + q + (24 * cc + q + 365 * yy + doy) / 1460 := by
    omega
  have h6 : doe - doe / 1460 + doe / 36524 - doe / 146096 =
      365 * (100 * cc + 4 * q + yy) + (doy - (24 * cc + q + 365 * yy + doy) / 1460) := by omega
  rw [h6]
  have h7 : 0 ≤ doy - (24 * cc + q + 365 * yy + doy) / 1460 ∧
      doy - (24 * cc + q + 365 * yy + doy) / 1460 < 365 := by
    rcases hc with h | h | h | h <;> rcases hy with h2 | h2 | h2 | h2 <;> omega
  omega

theorem era_parts (doe : Int) (h0 : 0 ≤ doe) (h1 : doe < 146097) :
    ∃ cc q yy doy : Int, (0 ≤ cc ∧ cc ≤ 3) ∧ (0 ≤ q ∧ q ≤ 24) ∧ (0 ≤ yy ∧ yy ≤ 3) ∧
      (0 ≤ doy ∧ doy ≤ 365) ∧ (doy = 365 → yy = 3 ∧ (q < 24 ∨ cc = 3)) ∧
      doe = 36524 * cc + 1461 * q + 365 * yy + doy := by
  refine ⟨min (doe / 36524) 3, (doe - 36524 * min (doe / 36524) 3) / 1461,
    min ((doe - 36524 * min (doe / 36524) 3) % 1461 / 365) 3,
    (doe - 36524 * min (doe / 36524) 3) % 1461 -
      365 * min ((doe - 36524 * min (doe / 36524) 3) % 1461 / 365) 3, ?_, ?_, ?_, ?_, ?_, ?_⟩ <;>
  omega

theorem yearOfEra_spec (doe : Int) (h0 : 0 ≤ doe) (h1 : doe < 146097) :
    0 ≤ yearOfEra doe ∧ yearOfEra doe ≤ 399 ∧ 0 ≤ dayOfYear doe ∧ dayOfYear doe ≤ 365 := by
  obtain ⟨cc, q, yy, doy, hcc, hq, hyy, hdoy, h365, hdoe⟩ := era_parts doe h0 h1
  have hyoe : yearOfEra doe = 100 * cc + 4 * q + yy :=
    yearOfEra_of_parts doe cc q yy doy hcc hq hyy hdoy h365 hdoe
  have e4 : (100 * cc + 4 * q + yy) / 4 = 25 * cc + q := by omega
  have e100 : (100 * cc + 4 * q + yy) / 100 = cc := by omega
  unfold dayOfYear
  rw [hyoe, e4, e100]
  omega

theorem monthOfDay_spec (doy : Int) (h0 : 0 ≤ doy) (h1 : doy ≤ 365) :
    1 ≤ monthOfDay doy ∧ monthOfDay doy ≤ 12 ∧
      (153 * (if monthOfDay doy > 2 then monthOfDay doy - 3 else monthOfDay doy + 9) + 2) / 5
        + dayOfMonth doy - 1 = doy ∧ 1 ≤ dayOfMonth doy ∧ dayOfMonth doy ≤ 31 := by
  unfold monthOfDay dayOfMonth
  split_ifs <;> omega

/-- The civil date of a day number gives the day number back. -/
theorem daysFromCivil_civilFromDays (z : Int) :
    daysFromCivil (civilFromDays z).1 (civilFromDays z).2.1 (civilFromDays z).2.2 = z := by
  have h0 : 0 ≤ (z + 719468) % 146097 := Int.emod_nonneg _ (by norm_num)
  have h1 : (z + 719468) % 146097 < 146097 := Int.emod_lt_of_pos _ (by norm_num)
  have hz : z = (z + 719468) / 146097 * 146097 + (z + 719468) % 146097 - 719468 := by omega
  generalize hdoe : (z + 719468) % 146097 = doe at h0 h1 hz
  obtain ⟨hy0, hy1, hd0, hd1⟩ := yearOfEra_spec doe h0 h1
  obtain ⟨hm0, hm1, hmd, -, -⟩ := monthOfDay_spec (dayOfYear doe) hd0 hd1
  have e1 : (civilFromDays z).1 = yearOfEra doe + (z + 719468) / 146097 * 400 +
      (if monthOfDay (dayOfYear doe) ≤ 2 then 1 else 0) := by
    simp only [civilFromDays, hdoe]
  have e2 : (civilFromDays z).2.1 = monthOfDay (dayOfYear doe) := by
    simp only [civilFromDays, hdoe]
  have e3 : (civilFromDays z).2.2 = dayOfMonth (dayOfYear doe) := by
    simp only [civilFromDays, hdoe]
  rw [e1, e2, e3]
  have hdoy : doe = 365 * yearOfEra doe + yearOfEra doe / 4 - yearOfEra doe / 100
      + dayOfYear doe := by
    unfold dayOfYear; omega
  clear e1 e2 e3 hdoe
  generalize (z + 719468) / 146097 = era at hz ⊢
  generalize dayOfMonth (dayOfYear doe) = d at hmd ⊢
  generalize monthOfDay (dayOfYear doe) = m at hm0 hm1 hmd ⊢
  generalize dayOfYear doe = doy at hd0 hd1 hmd hdoy
  generalize yearOfEra doe = yoe at hy0 hy1 hdoy ⊢
  have k1 : (yoe + era * 400) / 400 = era := by omega
  have k2 : (yoe + era * 400) % 400 = yoe := by omega
  unfold daysFromCivil
  simp only []
  split_ifs at hmd ⊢
  all_goals first
    | omega
    | (simp only [Int.add_sub_cancel, add_zero, k1, k2]; omega)

/-- Two timestamps have the same year, month and day exactly when they fall on
the same local day number. -/
theorem calendarDay_eq_iff (a b : Time) :
    calendarDay a = calendarDay b ↔ a.localDay = b.localDay := by
  constructor
  · intro h
    have ha := daysFromCivil_civilFromDays a.localDay
    have hb := daysFromCivil_civilFromDays b.localDay
    simp only [calendarDay, Time.Year, Time.Month, Time.Day, Prod.mk.injEq] at h
    rw [h.1, h.2.1, h.2.2] at ha
    rw [← ha, hb]
  · intro h
    simp only [calendarDay, Time.Year, Time.Month, Time.Day, h]

/-- Timestamps fewer than seven days apart fall on the same weekday exactly
when they fall on the same day. -/
theorem weekday_eq_iff (a b : Time) (h1 : b.localDay - a.localDay < 7)
    (h2 : a.localDay - b.localDay < 7) :
    a.Weekday = b.Weekday ↔ a.localDay = b.localDay := by
  unfold Time.Weekday
  constructor
  · intro h; omega
  · intro h; rw [h]

/-! ## The surviving events -/

theorem keep_some (parse : String → Option Time) (filterTime : Time) (item : Event) (b : Entry)
    (h : keep parse filterTime item = some b) :
    parse item.Start.DateTime = some b.start ∧ b.start.Before filterTime = false ∧
      parse item.End.DateTime = some b.stop ∧ b.item = item := by
  unfold keep at h
  cases hs : parse item.Start.DateTime with
  | none => simp [hs] at h
  | some s =>
    cases hb : s.Before filterTime with
    | true => simp [hs, hb] at h
    | false =>
      cases he : parse item.End.DateTime with
      | none => simp [hs, hb, he] at h
      | some e =>
        simp [hs, hb, he] at h
        subst h
        exact ⟨rfl, hb, rfl, rfl⟩

theorem keep_of_parts (parse : String → Option Time) (filterTime : Time) (item : Event)
    (s e : Time) (hs : parse item.Start.DateTime = some s) (hb : s.Before filterTime = false)
    (he : parse item.End.DateTime = some e) : keep parse filterTime item = some ⟨s, e, item⟩ := by
  simp [keep, hs, hb, he]

theorem before_false_le (s t : Time) (h : t.Before s = false) : s.sec ≤ t.sec := by
  unfold Time.Before at h
  simp only [decide_eq_false_iff_not, not_or] at h
  omega

theorem surviving_sorted (parse : String → Option Time) (filterTime : Time) (items : List Event)
    (hs : SortedByStart parse items) (ho : SameOffset parse items) :
    (surviving parse filterTime items).Pairwise
      (fun a b => a.start.localDay ≤ b.start.localDay) := by
  obtain ⟨off, hoff⟩ := ho
  have hs2 : items.Pairwise (fun a b => inOrder parse a b = true ∧
      (parse a.Start.DateTime).all (fun s => decide (s.offset = off)) = true ∧
      (parse b.Start.DateTime).all (fun s => decide (s.offset = off)) = true) :=
    List.Pairwise.imp_of_mem (fun {a b} ha hb hab => ⟨hab, hoff a ha, hoff b hb⟩) hs
  unfold surviving
  refine List.Pairwise.filterMap (keep parse filterTime) ?_ hs2
  intro a a2 ⟨hord, hoa, hoa2⟩ b hb b2 hb2
  obtain ⟨h1, -, -, -⟩ := keep_some parse filterTime a b hb
  obtain ⟨h2, -, -, -⟩ := keep_some parse filterTime a2 b2 hb2
  simp only [inOrder, h1, h2, Bool.not_eq_true'] at hord
  have hle := before_false_le b.start b2.start hord
  simp only [h1, Option.all_some, decide_eq_true_eq] at hoa
  simp only [h2, Option.all_some, decide_eq_true_eq] at hoa2
  unfold Time.localDay Time.abs
  rw [hoa, hoa2]
  omega

/-! ## How the loop can end -/

theorem loopBody_cases (parse : String → Option Time) (colors : Colors) (filterTime : Time)
    (st : LoopState) (item : Event) (hinv : st.Inv) :
    (Malformed parse filterTime item ∧ ∃ v, parse v = none ∧
        loopBody parse colors filterTime st item = .error (.malformedTimestamp v)) ∨
      (¬ Malformed parse filterTime item ∧ ∃ st1,
        loopBody parse colors filterTime st item = .ok st1 ∧ st1.Inv) := by
  cases hs : parse item.Start.DateTime with
  | none =>
    left
    exact ⟨Or.inl (by simp [hs]), _, hs, loopBody_badStart parse colors filterTime st item hs⟩
  | some s =>
    cases hb : s.Before filterTime with
    | true =>
      right
      refine ⟨?_, st, loopBody_skip parse colors filterTime st item s hs hb, hinv⟩
      simp [Malformed, hs, hb]
    | false =>
      cases he : parse item.End.DateTime with
      | none =>
        left
        exact ⟨Or.inr (by simp [hs, hb, he]), _, he,
          loopBody_badEnd parse colors filterTime st item s hs hb he⟩
      | some e =>
        right
        obtain ⟨h1, h2⟩ := loopBody_survivor parse colors filterTime st item s e hs hb he hinv
        refine ⟨?_, _, h1, h2⟩
        simp [Malformed, hs, hb, he]

theorem runLoop_cases (parse : String → Option Time) (colors : Colors) (filterTime : Time) :
    ∀ (items : List Event) (st : LoopState), st.Inv →
      ((∃ item ∈ items, Malformed parse filterTime item) ∧ ∃ v, parse v = none ∧
          runLoop parse colors filterTime st items = .error (.malformedTimestamp v)) ∨
        ((∀ item ∈ items, ¬ Malformed parse filterTime item) ∧ ∃ st1,
          runLoop parse colors filterTime st items = .ok st1 ∧ st1.Inv) := by
  intro items
  induction items with
  | nil =>
    intro st hinv
    right
    exact ⟨by simp, st, rfl, hinv⟩
  | cons item rest ih =>
    intro st hinv
    rcases loopBody_cases parse colors filterTime st item hinv with
      ⟨hm, v, hv, hbody⟩ | ⟨hm, st1, hbody, hinv1⟩
    · left
      refine ⟨⟨item, List.mem_cons_self _ _, hm⟩, v, hv, ?_⟩
      simp only [runLoop, hbody]
    · rcases ih st1 hinv1 with ⟨⟨x, hx, hxm⟩, v, hv, hrun⟩ | ⟨hall, st2, hrun, hinv2⟩
      · left
        refine ⟨⟨x, List.mem_cons_of_mem _ hx, hxm⟩, v, hv, ?_⟩
        simp only [runLoop, hbody]
        exact hrun
      · right
        refine ⟨?_, st2, ?_, hinv2⟩
        · intro x hx
          rcases List.mem_cons.mp hx with h | h
          · exact h ▸ hm
          · exact hall x h
        · simp only [runLoop, hbody]
          exact hrun

theorem not_malformed_survivorsParse (parse : String → Option Time) (filterTime : Time)
    (items : List Event) (h : ∀ item ∈ items, ¬ Malformed parse filterTime item) :
    SurvivorsParse parse filterTime items := by
  intro item hi
  have hm := h item hi
  unfold Malformed at hm
  cases hs : parse item.Start.DateTime with
  | none => simp [hs] at hm
  | some s =>
    cases hb : s.Before filterTime with
    | true => simp [hb]
    | false =>
      cases he : parse item.End.DateTime with
      | none => simp [hs, hb, he] at hm
      | some e => simp

/-- A loop that ends normally has read only timestamps that parse. -/
theorem groupingLoop_ok_survivorsParse (parse : String → Option Time) (colors : Colors)
    (filterTime : Time) (items : List Event) (week : List DayData)
    (h : groupingLoop parse colors filterTime items = .ok week) :
    SurvivorsParse parse filterTime items := by
  rcases runLoop_cases parse colors filterTime items LoopState.init init_inv with
    ⟨-, v, -, hrun⟩ | ⟨hall, -⟩
  · simp [groupingLoop, hrun] at h
  · exact not_malformed_survivorsParse parse filterTime items hall

/-- A loop that ends normally has put exactly the views of the surviving events
into `weekData`, in input order, and no day is empty. -/
theorem groupingLoop_ok_events (parse : String → Option Time) (colors : Colors)
    (filterTime : Time) (items : List Event) (week : List DayData)
    (h : groupingLoop parse colors filterTime items = .ok week) :
    week.flatMap DayData.Events =
        (surviving parse filterTime items).map (Entry.view colors) ∧
      ∀ dv ∈ week, dv.Events ≠ [] := by
  have hp := groupingLoop_ok_survivorsParse parse colors filterTime items week h
  rw [groupingLoop_ok parse colors filterTime items hp] at h
  injection h with h
  subst h
  constructor
  · rw [placeAll_flatMap colors _ [] (-1) (fun _ => by omega)]
    simp
  · exact placeAll_events_ne_nil colors _ [] (-1) (by simp)

/-! ## First-seen keys -/

theorem firstOfEach_nodup {κ : Type} [DecidableEq κ] (key : Time → κ) :
    ∀ es : List Entry, ((firstOfEach key es).map (fun f => key f.start)).Nodup := by
  intro es
  induction es with
  | nil => simp [firstOfEach]
  | cons e es ih =>
    simp only [firstOfEach, List.map_cons, List.nodup_cons, List.mem_map, List.mem_filter]
    constructor
    · rintro ⟨f, ⟨-, hf⟩, hk⟩
      simp [hk] at hf
    · exact List.Nodup.sublist (List.Sublist.map _ (List.filter_sublist _)) ih

theorem firstOfEach_covers {κ : Type} [DecidableEq κ] (key : Time → κ) :
    ∀ es : List Entry, ∀ e ∈ es, ∃ f ∈ firstOfEach key es, key f.start = key e.start := by
  intro es
  induction es with
  | nil => intro e he; simp at he
  | cons a es ih =>
    intro e he
    rcases List.mem_cons.mp he with h | h
    · exact ⟨a, by simp [firstOfEach], by rw [h]⟩
    · obtain ⟨f, hf, hk⟩ := ih e h
      by_cases hfa : key f.start = key a.start
      · exact ⟨a, by simp [firstOfEach], by rw [← hfa, hk]⟩
      · exact ⟨f, by simp [firstOfEach, hf, hfa], hk⟩

/-- The loop groups by local day number when the surviving events are in day
order and within a week. -/
theorem groupingLoop_eq_groupByDay (parse : String → Option Time) (colors : Colors)
    (filterTime : Time) (items : List Event) (hp : AllParse parse items)
    (hs : SortedByStart parse items) (ho : SameOffset parse items)
    (hw : WithinWeek (surviving parse filterTime items)) :
    groupingLoop parse colors filterTime items =
      .ok (groupByKey Time.localDay colors (surviving parse filterTime items)) := by
  rw [groupingLoop_ok parse colors filterTime items
    (allParse_survivorsParse parse filterTime items hp)]
  rw [placeAll_eq_groupByDay colors _ (surviving_sorted parse filterTime items hs ho) hw]

/-! ## Claims about the grouping -/

/-- C1, as amended: for an input whose timestamps all parse, sorted ascending by
start time, with all starts in one UTC offset and the surviving starts within
seven consecutive calendar days, the loop produces exactly one `DayView` per
distinct calendar day (year, month, day of the start) that has a surviving
event, in the order in which the days are first seen, each holding the events
of that day. -/
theorem groupingLoop_groups_by_calendar_day (parse : String → Option Time) (colors : Colors)
    (filterTime : Time) (items : List Event) (hp : AllParse parse items)
    (hs : SortedByStart parse items) (ho : SameOffset parse items)
    (hw : WithinWeek (surviving parse filterTime items)) :
    groupingLoop parse colors filterTime items =
        .ok (groupByCalendarDay colors (surviving parse filterTime items)) ∧
      ((firstOfEach calendarDay (surviving parse filterTime items)).map
        (fun f => calendarDay f.start)).Nodup ∧
      ∀ e ∈ surviving parse filterTime items,
        ∃ f ∈ firstOfEach calendarDay (surviving parse filterTime items),
          calendarDay f.start = calendarDay e.start := by
  refine ⟨?_, firstOfEach_nodup calendarDay _, firstOfEach_covers calendarDay _⟩
  rw [groupingLoop_eq_groupByDay parse colors filterTime items hp hs ho hw]
  unfold groupByCalendarDay
  rw [groupByKey_congr Time.localDay calendarDay colors _
    (fun a _ b _ => (calendarDay_eq_iff a.start b.start).symm)]

/-- C1, witness: the Monday 09:00 and Tuesday 14:30 events of the scenario give
exactly two `DayView`s, Monday then Tuesday, with one event each. -/
theorem groupingLoop_groups_by_calendar_day_witness :
    groupingLoop parseRFC3339 exColors exFilterTime exMonTue =
        .ok (groupByCalendarDay exColors (surviving parseRFC3339 exFilterTime exMonTue)) ∧
      groupByCalendarDay exColors (surviving parseRFC3339 exFilterTime exMonTue) =
        [⟨"Понедельник 08.04.2019", "mon",
            [⟨"09:00", "10:00", 540, 600, "A", "#fff", "#000"⟩], "пн", "08"⟩,
          ⟨"Вторник 09.04.2019", "tue",
            [⟨"14:30", "15:00", 870, 900, "B", "#000", "#fff"⟩], "вт", "09"⟩] :=
  ⟨(groupingLoop_groups_by_calendar_day parseRFC3339 exColors exFilterTime exMonTue
      (by decide) (by decide) ⟨10800, by decide⟩ (by decide)).1, by decide⟩

/-- C1, counterexample: two events on the Mondays of consecutive weeks are
sorted and fall on two distinct calendar days, yet the loop puts both into a
single `DayView`. -/
theorem groupingLoop_merges_two_mondays :
    AllParse parseRFC3339 exTwoMondays ∧ SortedByStart parseRFC3339 exTwoMondays ∧
      (surviving parseRFC3339 exFilterTime exTwoMondays).map (fun e => calendarDay e.start) =
        [(2019, 4, 8), (2019, 4, 15)] ∧
      groupingLoop parseRFC3339 exColors exFilterTime exTwoMondays =
        .ok [⟨"Понедельник 08.04.2019", "mon",
          [⟨"09:00", "10:00", 540, 600, "A", "#fff", "#000"⟩,
            ⟨"09:00", "10:00", 540, 600, "B", "#000", "#fff"⟩], "пн", "08"⟩] ∧
      groupingLoop parseRFC3339 exColors exFilterTime exTwoMondays ≠
        .ok (groupByCalendarDay exColors (surviving parseRFC3339 exFilterTime exTwoMondays)) := by
  decide

/-- Why one UTC offset is asked for: events sorted by instant and within one
week, but written in two offsets, can alternate between two dates, and the
loop then opens two `DayView`s for the same Tuesday. -/
theorem groupingLoop_mixed_offsets :
    AllParse parseRFC3339 exMixedOffsets ∧ SortedByStart parseRFC3339 exMixedOffsets ∧
      WithinWeek (surviving parseRFC3339 exFilterTime exMixedOffsets) ∧
      (surviving parseRFC3339 exFilterTime exMixedOffsets).map (fun e => calendarDay e.start) =
        [(2019, 4, 9), (2019, 4, 8), (2019, 4, 9)] ∧
      (groupingLoop parseRFC3339 exColors exFilterTime exMixedOffsets).map
        (fun week => week.map (fun dv => (dv.Caption, dv.Events.length))) =
        .ok [("Вторник 09.04.2019", 1), ("Понедельник 08.04.2019", 1),
          ("Вторник 09.04.2019", 1)] := by
  refine ⟨?_, ?_, ?_, ?_, ?_⟩ <;> decide

/-- C4, as amended: for an input whose timestamps all parse, sorted ascending by
start time, with all starts in one UTC offset and the surviving starts within
seven consecutive calendar days, the loop produces one `DayView` per start
weekday that occurs, holding all surviving events of that weekday in their
original relative order. -/
theorem groupingLoop_groups_by_weekday (parse : String → Option Time) (colors : Colors)
    (filterTime : Time) (items : List Event) (hp : AllParse parse items)
    (hs : SortedByStart parse items) (ho : SameOffset parse items)
    (hw : WithinWeek (surviving parse filterTime items)) :
    groupingLoop parse colors filterTime items =
        .ok (groupByWeekday colors (surviving parse filterTime items)) ∧
      ((firstOfEach Time.Weekday (surviving parse filterTime items)).map
        (fun f => f.start.Weekday)).Nodup ∧
      ∀ e ∈ surviving parse filterTime items,
        ∃ f ∈ firstOfEach Time.Weekday (surviving parse filterTime items),
          f.start.Weekday = e.start.Weekday := by
  refine ⟨?_, firstOfEach_nodup Time.Weekday _, firstOfEach_covers Time.Weekday _⟩
  rw [groupingLoop_eq_groupByDay parse colors filterTime items hp hs ho hw]
  unfold groupByWeekday
  rw [groupByKey_congr Time.localDay Time.Weekday colors _
    (fun a ha b hb => (weekday_eq_iff a.start b.start (hw a ha b hb) (hw b hb a ha)).symm)]

/-- C4, witness: the two events of the scenario, one per weekday. -/
theorem groupingLoop_groups_by_weekday_witness :
    groupingLoop parseRFC3339 exColors exFilterTime exMonTue =
        .ok (groupByWeekday exColors (surviving parseRFC3339 exFilterTime exMonTue)) ∧
      (surviving parseRFC3339 exFilterTime exMonTue).map (fun e => e.start.Weekday) = [1, 2] :=
  ⟨(groupingLoop_groups_by_weekday parseRFC3339 exColors exFilterTime exMonTue
      (by decide) (by decide) ⟨10800, by decide⟩ (by decide)).1, by decide⟩

/-- C4, counterexample: a Monday, the next Tuesday and the Monday after it are
sorted, the first and the third start on the same weekday, yet they end up in
two different `DayView`s. -/
theorem groupingLoop_splits_a_weekday :
    AllParse parseRFC3339 exMonTueMon ∧ SortedByStart parseRFC3339 exMonTueMon ∧
      (surviving parseRFC3339 exFilterTime exMonTueMon).map (fun e => e.start.Weekday) =
        [1, 2, 1] ∧
      groupingLoop parseRFC3339 exColors exFilterTime exMonTueMon =
        .ok [⟨"Понедельник 08.04.2019", "mon",
            [⟨"09:00", "10:00", 540, 600, "A", "#fff", "#000"⟩], "пн", "08"⟩,
          ⟨"Вторник 09.04.2019", "tue",
            [⟨"14:30", "15:00", 870, 900, "B", "#000", "#fff"⟩], "вт", "09"⟩,
          ⟨"Понедельник 15.04.2019", "mon",
            [⟨"09:00", "10:00", 540, 600, "C", "#fff", "#000"⟩], "пн", "15"⟩] ∧
      groupingLoop parseRFC3339 exColors exFilterTime exMonTueMon ≠
        .ok (groupByWeekday exColors (surviving parseRFC3339 exFilterTime exMonTueMon)) := by
  decide

/-! ## Claims about filtering, faults and the loop invariant -/

theorem surviving_items (parse : String → Option Time) (filterTime : Time) :
    ∀ items : List Event, SurvivorsParse parse filterTime items →
      (surviving parse filterTime items).map (fun e => e.item) =
        items.filter (startsInWindow parse filterTime) := by
  intro items
  induction items with
  | nil => intro _; rfl
  | cons item rest ih =>
    intro hp
    have hrest : SurvivorsParse parse filterTime rest :=
      fun x hx => hp x (List.mem_cons_of_mem _ hx)
    obtain ⟨s, hs, hend⟩ := survivorsParse_elim parse filterTime item
      (hp item (List.mem_cons_self _ _))
    cases hb : s.Before filterTime with
    | true =>
      rw [surviving_cons_skip parse filterTime item rest s hs hb, ih hrest]
      simp [startsInWindow, hs, hb]
    | false =>
      obtain ⟨e, he⟩ := hend hb
      rw [surviving_cons_keep parse filterTime item rest s e hs hb he]
      simp [startsInWindow, hs, hb, ih hrest]

theorem surviving_filter (parse : String → Option Time) (filterTime : Time) :
    ∀ items : List Event,
      surviving parse filterTime (items.filter (startsInWindow parse filterTime)) =
        surviving parse filterTime items := by
  intro items
  induction items with
  | nil => rfl
  | cons item rest ih =>
    cases hq : startsInWindow parse filterTime item with
    | true =>
      simp only [List.filter_cons, hq, if_true]
      simp only [surviving, List.filterMap_cons] at ih ⊢
      rw [ih]
    | false =>
      have hk : keep parse filterTime item = none := by
        unfold startsInWindow at hq
        unfold keep
        cases hs : parse item.Start.DateTime with
        | none => rfl
        | some s =>
          simp only [hs, Option.any_some, Bool.not_eq_false'] at hq
          simp [hq]
      simp only [List.filter_cons, hq]
      simp only [surviving, List.filterMap_cons, hk] at ih ⊢
      simpa using ih

/-- C9: when all timestamps parse, whatever the order of the input, the loop
ends normally; concatenating the events of its `DayView`s in order gives the
views of the surviving events in input order, the surviving events being
exactly the input events whose start is not before `filterTime`; and every
`DayView` has at least one event. -/
theorem groupingLoop_keeps_survivors_in_order (parse : String → Option Time) (colors : Colors)
    (filterTime : Time) (items : List Event) (hp : AllParse parse items) :
    ∃ week, groupingLoop parse colors filterTime items = .ok week ∧
      week.flatMap DayData.Events =
        (surviving parse filterTime items).map (Entry.view colors) ∧
      (surviving parse filterTime items).map (fun e => e.item) =
        items.filter (startsInWindow parse filterTime) ∧
      ∀ dv ∈ week, dv.Events ≠ [] := by
  have hsp := allParse_survivorsParse parse filterTime items hp
  have hok := groupingLoop_ok parse colors filterTime items hsp
  obtain ⟨h1, h2⟩ := groupingLoop_ok_events parse colors filterTime items _ hok
  exact ⟨_, hok, h1, surviving_items parse filterTime items hsp, h2⟩

/-- C9, witness: an unsorted input (Tuesday before Monday) loses nothing. -/
theorem groupingLoop_keeps_survivors_in_order_witness :
    ∃ week, groupingLoop parseRFC3339 exColors exFilterTime exMonTue.reverse = .ok week ∧
      week.flatMap DayData.Events =
        (surviving parseRFC3339 exFilterTime exMonTue.reverse).map (Entry.view exColors) ∧
      (surviving parseRFC3339 exFilterTime exMonTue.reverse).map (fun e => e.item) =
        exMonTue.reverse.filter (startsInWindow parseRFC3339 exFilterTime) ∧
      ∀ dv ∈ week, dv.Events ≠ [] :=
  groupingLoop_keeps_survivors_in_order parseRFC3339 exColors exFilterTime exMonTue.reverse
    (by decide)

/-- C2: when every start parses, and the end of every event that is not
filtered out parses, the loop ends normally and its `DayView`s hold exactly the
views of the events whose start is not before `filterTime`: each of them
appears, nothing else appears, their number is the number of such events, and
removing the other events from the input (whatever their end time, parsable or
not) gives the same result. -/
theorem groupingLoop_filters_by_start (parse : String → Option Time) (colors : Colors)
    (filterTime : Time) (items : List Event) (hp : SurvivorsParse parse filterTime items) :
    ∃ week, groupingLoop parse colors filterTime items = .ok week ∧
      (∀ ev, ev ∈ week.flatMap DayData.Events ↔
        ∃ item ∈ items, ∃ s e, parse item.Start.DateTime = some s ∧
          s.Before filterTime = false ∧ parse item.End.DateTime = some e ∧
          ev = newEvent colors s e item) ∧
      (week.flatMap DayData.Events).length =
        (items.filter (startsInWindow parse filterTime)).length ∧
      groupingLoop parse colors filterTime (items.filter (startsInWindow parse filterTime)) =
        .ok week := by
  have hok := groupingLoop_ok parse colors filterTime items hp
  obtain ⟨h1, -⟩ := groupingLoop_ok_events parse colors filterTime items _ hok
  refine ⟨_, hok, ?_, ?_, ?_⟩
  · intro ev
    rw [h1, List.mem_map]
    constructor
    · rintro ⟨b, hb, rfl⟩
      obtain ⟨item, hi, hk⟩ := List.mem_filterMap.mp hb
      obtain ⟨k1, k2, k3, k4⟩ := keep_some parse filterTime item b hk
      refine ⟨item, hi, b.start, b.stop, k1, k2, k3, ?_⟩
      simp [Entry.view, k4]
    · rintro ⟨item, hi, s, e, hs, hb, he, rfl⟩
      refine ⟨⟨s, e, item⟩, ?_, rfl⟩
      exact List.mem_filterMap.mpr ⟨item, hi, keep_of_parts parse filterTime item s e hs hb he⟩
  · rw [h1, List.length_map, ← surviving_items parse filterTime items hp, List.length_map]
  · have hp2 : SurvivorsParse parse filterTime (items.filter (startsInWindow parse filterTime)) :=
      fun x hx => hp x (List.mem_of_mem_filter hx)
    rw [groupingLoop_ok parse colors filterTime _ hp2, surviving_filter]

/-- C2, witness: an event that starts one day before the window start and ends
inside the window is dropped entirely; the Monday event stays. -/
theorem groupingLoop_filters_by_start_witness :
    (∃ week, groupingLoop parseRFC3339 exColors exFilterTime exEarly = .ok week ∧
      (∀ ev, ev ∈ week.flatMap DayData.Events ↔
        ∃ item ∈ exEarly, ∃ s e, parseRFC3339 item.Start.DateTime = some s ∧
          s.Before exFilterTime = false ∧ parseRFC3339 item.End.DateTime = some e ∧
          ev = newEvent exColors s e item) ∧
      (week.flatMap DayData.Events).length =
        (exEarly.filter (startsInWindow parseRFC3339 exFilterTime)).length ∧
      groupingLoop parseRFC3339 exColors exFilterTime
        (exEarly.filter (startsInWindow parseRFC3339 exFilterTime)) = .ok week) ∧
    groupingLoop parseRFC3339 exColors exFilterTime exEarly =
      .ok [⟨"Понедельник 08.04.2019", "mon",
        [⟨"09:00", "10:00", 540, 600, "A", "#fff", "#000"⟩], "пн", "08"⟩] :=
  ⟨groupingLoop_filters_by_start parseRFC3339 exColors exFilterTime exEarly (by decide),
    by decide⟩

/-! ## The loop with Go's pointers -/

/-- On an item whose pointers are all set, and with a colour table, the loop
body with pointers is the loop body. -/
theorem loopBodyRaw_present (parse : String → Option Time) (colors : Colors)
    (filterTime : Time) (st : LoopState) (e : Event) :
    loopBodyRaw parse (some colors) filterTime st (some e.toRaw) =
      loopBody parse colors filterTime st e := by
  obtain ⟨start, stop, summary, colorId⟩ := e
  simp only [loopBodyRaw, loopBody, Event.toRaw]

theorem runLoopRaw_present (parse : String → Option Time) (colors : Colors)
    (filterTime : Time) :
    ∀ (items : List Event) (st : LoopState),
      runLoopRaw parse (some colors) filterTime st (items.map (fun e => some e.toRaw)) =
        runLoop parse colors filterTime st items := by
  intro items
  induction items with
  | nil => intro st; rfl
  | cons e rest ih =>
    intro st
    simp only [List.map_cons, runLoopRaw, runLoop, loopBodyRaw_present]
    cases loopBody parse colors filterTime st e with
    | error f => rfl
    | ok st1 => exact ih st1

/-- On an input without nil pointers the loop with pointers is the loop. -/
theorem groupingLoopRaw_present (parse : String → Option Time) (colors : Colors)
    (filterTime : Time) (items : List Event) :
    groupingLoopRaw parse (some colors) filterTime (items.map (fun e => some e.toRaw)) =
      groupingLoop parse colors filterTime items := by
  simp only [groupingLoopRaw, groupingLoop, runLoopRaw_present]

theorem loopBodyRaw_cases (parse : String → Option Time) (colors : Option Colors)
    (filterTime : Time) (st : LoopState) (p : Option RawEvent) (hinv : st.Inv) :
    (loopBodyRaw parse colors filterTime st p = .error .nilInput ∧
        (colors = none ∨ p = none ∨ ∃ raw, p = some raw ∧ (raw.Start = none ∨ raw.End = none)))
      ∨ (∃ v, loopBodyRaw parse colors filterTime st p = .error (.malformedTimestamp v))
      ∨ (∃ st1, loopBodyRaw parse colors filterTime st p = .ok st1 ∧ st1.Inv) := by
  cases p with
  | none => exact Or.inl ⟨rfl, Or.inr (Or.inl rfl)⟩
  | some raw =>
    obtain ⟨start?, stop?, summary, colorId⟩ := raw
    cases start? with
    | none => exact Or.inl ⟨rfl, Or.inr (Or.inr ⟨_, rfl, Or.inl rfl⟩)⟩
    | some start =>
      cases hs : parse start.DateTime with
      | none => exact Or.inr (Or.inl ⟨start.DateTime, by simp [loopBodyRaw, hs]⟩)
      | some s =>
        cases hb : s.Before filterTime with
        | true => exact Or.inr (Or.inr ⟨st, by simp [loopBodyRaw, hs, hb], hinv⟩)
        | false =>
          cases stop? with
          | none =>
            exact Or.inl ⟨by simp [loopBodyRaw, hs, hb], Or.inr (Or.inr ⟨_, rfl, Or.inr rfl⟩)⟩
          | some stop =>
            cases he : parse stop.DateTime with
            | none => exact Or.inr (Or.inl ⟨stop.DateTime, by simp [loopBodyRaw, hs, hb, he]⟩)
            | some e =>
              cases colors with
              | some table =>
                obtain ⟨h1, h2⟩ := loopBody_survivor parse table filterTime st
                  ⟨start, stop, summary, colorId⟩ s e hs hb he hinv
                refine Or.inr (Or.inr ⟨_, ?_, h2⟩)
                rw [← h1]
                exact loopBodyRaw_present parse table filterTime st
                  ⟨start, stop, summary, colorId⟩
              | none =>
                refine Or.inl ⟨?_, Or.inl rfl⟩
                have hw := weekday_range s
                rcases hinv with h | ⟨w, d, hwd, hcur, hp0, hp1⟩
                · subst h
                  have hne : (-1 : Int) ≠ s.Weekday := by omega
                  simp [loopBodyRaw, hs, hb, he, LoopState.init, hne, newDay_eq]
                · obtain ⟨weekData, currentDay, prevWeekDay⟩ := st
                  simp only at hwd hcur hp0 hp1
                  subst hwd hcur
                  by_cases hne : prevWeekDay = s.Weekday
                  · simp [loopBodyRaw, hs, hb, he, hne]
                  · simp [loopBodyRaw, hs, hb, he, hne, newDay_eq]

theorem runLoopRaw_cases (parse : String → Option Time) (colors : Option Colors)
    (filterTime : Time) :
    ∀ (items : List (Option RawEvent)) (st : LoopState), st.Inv →
      (runLoopRaw parse colors filterTime st items = .error .nilInput ∧
          (colors = none ∨ ∃ p ∈ items, p = none ∨
            ∃ raw, p = some raw ∧ (raw.Start = none ∨ raw.End = none)))
        ∨ (∃ v, runLoopRaw parse colors filterTime st items = .error (.malformedTimestamp v))
        ∨ (∃ st1, runLoopRaw parse colors filterTime st items = .ok st1 ∧ st1.Inv) := by
  intro items
  induction items with
  | nil => intro st hinv; exact Or.inr (Or.inr ⟨st, rfl, hinv⟩)
  | cons p rest ih =>
    intro st hinv
    rcases loopBodyRaw_cases parse colors filterTime st p hinv with
      ⟨hbody, hnil⟩ | ⟨v, hbody⟩ | ⟨st1, hbody, hinv1⟩
    · refine Or.inl ⟨by simp only [runLoopRaw, hbody], ?_⟩
      rcases hnil with h | h | h
      · exact Or.inl h
      · exact Or.inr ⟨p, List.mem_cons_self _ _, Or.inl h⟩
      · exact Or.inr ⟨p, List.mem_cons_self _ _, Or.inr h⟩
    · exact Or.inr (Or.inl ⟨v, by simp only [runLoopRaw, hbody]⟩)
    · rcases ih st1 hinv1 with ⟨hrun, hnil⟩ | ⟨v, hrun⟩ | ⟨st2, hrun, hinv2⟩
      · refine Or.inl ⟨by simp only [runLoopRaw, hbody]; exact hrun, ?_⟩
        rcases hnil with h | ⟨q, hq, h⟩
        · exact Or.inl h
        · exact Or.inr ⟨q, List.mem_cons_of_mem _ hq, h⟩
      · exact Or.inr (Or.inl ⟨v, by simp only [runLoopRaw, hbody]; exact hrun⟩)
      · exact Or.inr (Or.inr ⟨st2, by simp only [runLoopRaw, hbody]; exact hrun, hinv2⟩)

theorem allPresent_no_nil (colors : Option Colors) (items : List (Option RawEvent))
    (h : AllPresent colors items) :
    ¬ (colors = none ∨ ∃ p ∈ items, p = none ∨
      ∃ raw, p = some raw ∧ (raw.Start = none ∨ raw.End = none)) := by
  obtain ⟨hc, hi⟩ := h
  rintro (h0 | ⟨p, hp, h0 | ⟨raw, hraw, h1 | h1⟩⟩)
  · simp [h0] at hc
  · have := hi p hp
    simp [h0] at this
  · have := hi p hp
    simp [hraw, h1] at this
  · have := hi p hp
    simp [hraw, h1] at this

/-- C10, as amended: on every input, nil pointers included, the loop ends
neither by an index out of range nor by a nil `currentDay`: the weekday of any
timestamp is within 0..6, in bounds of `ruWeek`, `ruWeekShort` and
`weekClassSuffix`, and after any number of iterations either nothing has
survived yet (`weekData` empty, `currentDay` nil, `prevWeekDay` -1) or
`currentDay` points at the last element of `weekData` and `prevWeekDay` is a
weekday. When no pointer of the input is nil (the colour table, every item and
the `Start` and `End` of every item), the loop hits no run-time fault at all. -/
theorem groupingLoopRaw_never_panics (parse : String → Option Time) (colors : Option Colors)
    (filterTime : Time) (items : List (Option RawEvent)) :
    groupingLoopRaw parse colors filterTime items ≠ .error .indexOutOfRange ∧
      groupingLoopRaw parse colors filterTime items ≠ .error .nilDereference ∧
      (AllPresent colors items →
        groupingLoopRaw parse colors filterTime items ≠ .error .nilInput) ∧
      (∀ t : Time, 0 ≤ t.Weekday ∧ t.Weekday ≤ 6 ∧ t.Weekday.toNat < ruWeek.length ∧
        t.Weekday.toNat < ruWeekShort.length ∧ t.Weekday.toNat < weekClassSuffix.length ∧
        newDay t = .ok (dayHeader t)) ∧
      ∀ pre suf st, items = pre ++ suf →
        runLoopRaw parse colors filterTime LoopState.init pre = .ok st →
          (st.weekData = [] ∧ st.currentDay = none ∧ st.prevWeekDay = -1) ∨
            (∃ w d, st.weekData = w ++ [d] ∧ st.currentDay = some w.length ∧
              0 ≤ st.prevWeekDay ∧ st.prevWeekDay ≤ 6) := by
  refine ⟨?_, ?_, ?_, ?_, ?_⟩
  · rcases runLoopRaw_cases parse colors filterTime items LoopState.init init_inv with
      ⟨hrun, -⟩ | ⟨v, hrun⟩ | ⟨st, hrun, -⟩ <;> simp [groupingLoopRaw, hrun]
  · rcases runLoopRaw_cases parse colors filterTime items LoopState.init init_inv with
      ⟨hrun, -⟩ | ⟨v, hrun⟩ | ⟨st, hrun, -⟩ <;> simp [groupingLoopRaw, hrun]
  · intro hall
    rcases runLoopRaw_cases parse colors filterTime items LoopState.init init_inv with
      ⟨-, hnil⟩ | ⟨v, hrun⟩ | ⟨st, hrun, -⟩
    · exact absurd hnil (allPresent_no_nil colors items hall)
    · simp [groupingLoopRaw, hrun]
    · simp [groupingLoopRaw, hrun]
  · intro t
    have h := weekday_range t
    have h8 : ruWeek.length = 8 := rfl
    have h7 : ruWeekShort.length = 7 := rfl
    have h7c : weekClassSuffix.length = 7 := rfl
    refine ⟨h.1, h.2, ?_, ?_, ?_, newDay_eq t⟩ <;> omega
  · intro pre suf st _ hrun
    rcases runLoopRaw_cases parse colors filterTime pre LoopState.init init_inv with
      ⟨hrun2, -⟩ | ⟨v, hrun2⟩ | ⟨st2, hrun2, hinv⟩
    · rw [hrun2] at hrun
      simp at hrun
    · rw [hrun2] at hrun
      simp at hrun
    · rw [hrun2] at hrun
      injection hrun with hrun
      subst hrun
      rcases hinv with h | h
      · left
        subst h
        exact ⟨rfl, rfl, rfl⟩
      · right
        exact h

/-- C10, witness: the scenario input has no nil pointer, and the loop ends
without a fault, with the same result as the loop on events with all pointers
set. -/
theorem groupingLoopRaw_never_panics_witness :
    AllPresent (some exColors) (exMonTue.map (fun e => some e.toRaw)) ∧
      groupingLoopRaw parseRFC3339 (some exColors) exFilterTime
        (exMonTue.map (fun e => some e.toRaw)) ≠ .error .nilInput ∧
      groupingLoopRaw parseRFC3339 (some exColors) exFilterTime
        (exMonTue.map (fun e => some e.toRaw)) ≠ .error .indexOutOfRange ∧
      groupingLoopRaw parseRFC3339 (some exColors) exFilterTime
        (exMonTue.map (fun e => some e.toRaw)) ≠ .error .nilDereference :=
  ⟨by decide,
    (groupingLoopRaw_never_panics parseRFC3339 (some exColors) exFilterTime
      (exMonTue.map (fun e => some e.toRaw))).2.2.1 (by decide),
    (groupingLoopRaw_never_panics parseRFC3339 (some exColors) exFilterTime
      (exMonTue.map (fun e => some e.toRaw))).1,
    (groupingLoopRaw_never_panics parseRFC3339 (some exColors) exFilterTime
      (exMonTue.map (fun e => some e.toRaw))).2.1⟩

/-- C10, counterexample: an item whose `Start` is nil makes the loop stop on a
nil pointer dereference at `item.Start.DateTime`. -/
theorem groupingLoopRaw_nil_start_panics :
    groupingLoopRaw parseRFC3339 (some exColors) exFilterTime exNilStart = .error .nilInput := by
  decide

/-! ## Claims about malformed timestamps -/

theorem storeSchedule_loopFault (env : Env) (parse : String → Option Time) (fs : FS)
    (events : List Event) (colors : Colors) (displayChunkPath printChunkPath : String)
    (filterTime : Time) (f : Fault)
    (h : groupingLoop parse colors filterTime events = .error f) :
    (storeSchedule env parse fs events colors displayChunkPath printChunkPath filterTime).2 ≠
        .completed ∧
      (env.parseFiles = true → env.create (displayChunkPath ++ ".part") = true →
        env.create (printChunkPath ++ ".part") = true →
        (storeSchedule env parse fs events colors displayChunkPath printChunkPath filterTime).2 =
          .loopFault f) ∧
      ∀ p, p ≠ displayChunkPath ++ ".part" → p ≠ printChunkPath ++ ".part" →
        (storeSchedule env parse fs events colors displayChunkPath printChunkPath filterTime).1 p
          = fs p := by
  unfold storeSchedule
  cases h1 : env.parseFiles with
  | false => simp
  | true =>
    cases h2 : env.create (displayChunkPath ++ ".part") with
    | false => simp
    | true =>
      cases h3 : env.create (printChunkPath ++ ".part") with
      | false =>
        simp only [Bool.not_true, Bool.not_false, if_true, Bool.false_eq_true, if_false]
        refine ⟨by simp, by simp, ?_⟩
        intro p hp1 _
        simp [FS.write, hp1]
      | true =>
        simp only [Bool.not_true, Bool.false_eq_true, if_false, h]
        refine ⟨by simp, by simp, ?_⟩
        intro p hp1 hp2
        simp [FS.write, hp1, hp2]

theorem runLoop_sameButFilteredEnd (parse : String → Option Time) (colors : Colors)
    (filterTime : Time) :
    ∀ (items items2 : List Event), List.Forall₂ (SameButFilteredEnd parse filterTime) items items2 →
      ∀ st, runLoop parse colors filterTime st items2 = runLoop parse colors filterTime st items := by
  intro items items2 h
  induction h with
  | nil => intro st; rfl
  | @cons a b l1 l2 hab _ ih =>
    intro st
    have hbody : loopBody parse colors filterTime st b = loopBody parse colors filterTime st a := by
      rcases hab with h0 | ⟨h1, -, -, h4⟩
      · rw [h0]
      · cases hs : parse a.Start.DateTime with
        | none => simp [hs] at h4
        | some s =>
          simp only [hs, Option.any_some] at h4
          rw [loopBody_skip parse colors filterTime st a s hs h4,
            loopBody_skip parse colors filterTime st b s (by rw [← h1]; exact hs) h4]
    simp only [runLoop, hbody]
    cases loopBody parse colors filterTime st a with
    | error f => rfl
    | ok st1 => exact ih st1

/-- C5, as amended: the loop stops with the fatal `MalformedTimestamp` error
exactly when the start timestamp of some event does not parse, or the end
timestamp of some event whose start is not before `filterTime` does not parse.
When it does, the error is on a string that does not parse, `storeSchedule`
does not complete, it ends with that error whenever its files could be
created, and every file other than the two temporary `.part` files is left as
it was. The end timestamp of an event that is filtered out is never parsed:
changing it, to anything, changes nothing in the result of the loop. -/
theorem malformed_timestamp_is_fatal (env : Env) (parse : String → Option Time) (fs : FS)
    (items : List Event) (colors : Colors) (displayChunkPath printChunkPath : String)
    (filterTime : Time) :
    ((∃ v, groupingLoop parse colors filterTime items = .error (.malformedTimestamp v)) ↔
        ∃ item ∈ items, Malformed parse filterTime item) ∧
      ((∃ item ∈ items, Malformed parse filterTime item) →
        ∃ v, parse v = none ∧
          groupingLoop parse colors filterTime items = .error (.malformedTimestamp v) ∧
          (storeSchedule env parse fs items colors displayChunkPath printChunkPath
            filterTime).2 ≠ .completed ∧
          (env.parseFiles = true → env.create (displayChunkPath ++ ".part") = true →
            env.create (printChunkPath ++ ".part") = true →
            (storeSchedule env parse fs items colors displayChunkPath printChunkPath
              filterTime).2 = .loopFault (.malformedTimestamp v)) ∧
          ∀ p, p ≠ displayChunkPath ++ ".part" → p ≠ printChunkPath ++ ".part" →
            (storeSchedule env parse fs items colors displayChunkPath printChunkPath
              filterTime).1 p = fs p) ∧
      (∀ items2, List.Forall₂ (SameButFilteredEnd parse filterTime) items items2 →
        groupingLoop parse colors filterTime items2 =
          groupingLoop parse colors filterTime items) := by
  have hfatal : (∃ item ∈ items, Malformed parse filterTime item) →
      ∃ v, parse v = none ∧
        groupingLoop parse colors filterTime items = .error (.malformedTimestamp v) := by
    intro h
    rcases runLoop_cases parse colors filterTime items LoopState.init init_inv with
      ⟨-, v, hv, hrun⟩ | ⟨hall, -⟩
    · exact ⟨v, hv, by simp [groupingLoop, hrun]⟩
    · obtain ⟨item, hi, hm⟩ := h
      exact absurd hm (hall item hi)
  refine ⟨⟨?_, ?_⟩, ?_, ?_⟩
  · rintro ⟨v, hv⟩
    rcases runLoop_cases parse colors filterTime items LoopState.init init_inv with
      ⟨hex, -⟩ | ⟨-, st, hrun, -⟩
    · exact hex
    · simp [groupingLoop, hrun] at hv
  · intro h
    obtain ⟨v, -, hloop⟩ := hfatal h
    exact ⟨v, hloop⟩
  · intro h
    obtain ⟨v, hv, hloop⟩ := hfatal h
    exact ⟨v, hv, hloop,
      storeSchedule_loopFault env parse fs items colors displayChunkPath printChunkPath
        filterTime _ hloop⟩
  · intro items2 h2
    simp only [groupingLoop,
      runLoop_sameButFilteredEnd parse colors filterTime items items2 h2 LoopState.init]

/-- C5, witness: a Monday event inside the window whose end is `garbage` stops
the run, and the two published artifacts keep their old content. -/
theorem malformed_timestamp_is_fatal_witness :
    (∃ v, parseRFC3339 v = none ∧
      groupingLoop parseRFC3339 exColors exFilterTime exBadEndKept =
        .error (.malformedTimestamp v) ∧
      (storeSchedule exEnv parseRFC3339 exFS exBadEndKept exColors "out/display.html"
        "out/print.html" exFilterTime).2 ≠ .completed ∧
      (exEnv.parseFiles = true → exEnv.create ("out/display.html" ++ ".part") = true →
        exEnv.create ("out/print.html" ++ ".part") = true →
        (storeSchedule exEnv parseRFC3339 exFS exBadEndKept exColors "out/display.html"
          "out/print.html" exFilterTime).2 = .loopFault (.malformedTimestamp v)) ∧
      ∀ p, p ≠ "out/display.html" ++ ".part" → p ≠ "out/print.html" ++ ".part" →
        (storeSchedule exEnv parseRFC3339 exFS exBadEndKept exColors "out/display.html"
          "out/print.html" exFilterTime).1 p = exFS p) ∧
    groupingLoop parseRFC3339 exColors exFilterTime exBadEndKept =
      .error (.malformedTimestamp "garbage") ∧
    ¬ (∃ item ∈ exBadEnd, Malformed parseRFC3339 exFilterTime item) :=
  ⟨(malformed_timestamp_is_fatal exEnv parseRFC3339 exFS exBadEndKept exColors
    "out/display.html" "out/print.html" exFilterTime).2.1 (by decide), by decide, by decide⟩

/-- C5, counterexample: an event that starts before `filterTime` and whose end
timestamp does not parse does not stop the loop, which ends normally with no
`DayView`: the end timestamp is parsed only after the filter. -/
theorem filtered_event_end_is_not_parsed :
    parseRFC3339 "garbage" = none ∧ (∃ item ∈ exBadEnd, item.End.DateTime = "garbage") ∧
      groupingLoop parseRFC3339 exColors exFilterTime exBadEnd = .ok [] ∧
      (storeSchedule exEnv parseRFC3339 exFS exBadEnd exColors "out/display.html"
        "out/print.html" exFilterTime).2 = .completed := by
  decide

/-! ## Claims about one `EventView` -/

theorem escapeChar_no_special (a c : Char) (h : c ∈ escapeChar a) :
    c ≠ '<' ∧ c ≠ '>' ∧ c ≠ '"' ∧ c ≠ '\'' := by
  unfold escapeChar at h
  split_ifs at h with h0 h1 h2 h3 h4 h5
  · simp only [List.mem_singleton] at h
    subst h
    decide
  all_goals first
    | (simp only [List.mem_singleton] at h
       subst h
       exact ⟨h4, h5, h1, h2⟩)
    | (simp at h
       rcases h with h | h | h | h | h <;> subst h <;> decide)
    | (simp at h
       rcases h with h | h | h | h <;> subst h <;> decide)

theorem escape_no_special (s : String) :
    ∀ c ∈ (HTMLEscapeString s).data, c ≠ '<' ∧ c ≠ '>' ∧ c ≠ '"' ∧ c ≠ '\'' := by
  intro c hc
  simp only [HTMLEscapeString, List.mem_flatMap] at hc
  obtain ⟨a, -, ha⟩ := hc
  exact escapeChar_no_special a c ha

theorem ampsBeginEntities_escapeChar (a : Char) (r : List Char)
    (h : ampsBeginEntities r = true) : ampsBeginEntities (escapeChar a ++ r) = true := by
  unfold escapeChar
  split_ifs with h0 h1 h2 h3 h4 h5
  · simp [ampsBeginEntities, h]
  · simp [ampsBeginEntities, entityTails, List.isPrefixOf, h]
  · simp [ampsBeginEntities, entityTails, List.isPrefixOf, h]
  · simp [ampsBeginEntities, entityTails, List.isPrefixOf, h]
  · simp [ampsBeginEntities, entityTails, List.isPrefixOf, h]
  · simp [ampsBeginEntities, entityTails, List.isPrefixOf, h]
  · simp [ampsBeginEntities, h, h3]

theorem ampsBeginEntities_escape (cs : List Char) :
    ampsBeginEntities (cs.flatMap escapeChar) = true := by
  induction cs with
  | nil => rfl
  | cons c cs ih =>
    rw [List.flatMap_cons]
    exact ampsBeginEntities_escapeChar c _ ih

theorem ampsBeginEntities_spec :
    ∀ (l : List Char), ampsBeginEntities l = true →
      ∀ pre suf, l = pre ++ '&' :: suf → ∃ t ∈ entityTails, t <+: suf := by
  intro l
  induction l with
  | nil => intro _ pre suf h; simp at h
  | cons c l ih =>
    intro hok pre suf h
    simp only [ampsBeginEntities, Bool.and_eq_true, Bool.or_eq_true, bne_iff_ne, ne_eq,
      List.any_eq_true] at hok
    cases pre with
    | nil =>
      simp only [List.nil_append, List.cons.injEq] at h
      obtain ⟨hc, hl⟩ := h
      subst hl
      rcases hok.1 with h1 | ⟨t, ht, hp⟩
      · exact absurd hc h1
      · exact ⟨t, ht, List.isPrefixOf_iff_prefix.mp hp⟩
    | cons x pre =>
      simp only [List.cons_append, List.cons.injEq] at h
      exact ih hok.2 pre suf h.2

theorem head_dropWhile_not (p : Char → Bool) :
    ∀ (l : List Char) (c : Char), (l.dropWhile p).head? = some c → p c = false := by
  intro l c h
  have := List.head?_dropWhile_not p l
  rw [h] at this
  exact this

theorem trim_space_spec (s : String) :
    (∃ pre post, s.data = pre ++ (Trim s " ").data ++ post ∧ (∀ c ∈ pre, c = ' ') ∧
        (∀ c ∈ post, c = ' ')) ∧
      (Trim s " ").data.head? ≠ some ' ' ∧ (Trim s " ").data.getLast? ≠ some ' ' := by
  have hp : ∀ c : Char, " ".data.contains c = true ↔ c = ' ' := by intro c; simp
  have hm : s.data = (s.data.reverse.dropWhile (fun c => " ".data.contains c)).reverse ++
      (s.data.reverse.takeWhile (fun c => " ".data.contains c)).reverse := by
    rw [← List.reverse_append, List.takeWhile_append_dropWhile, List.reverse_reverse]
  have hm2 := List.takeWhile_append_dropWhile (fun c => " ".data.contains c)
    (s.data.reverse.dropWhile (fun c => " ".data.contains c)).reverse
  refine ⟨⟨(s.data.reverse.dropWhile (fun c => " ".data.contains c)).reverse.takeWhile
      (fun c => " ".data.contains c),
    (s.data.reverse.takeWhile (fun c => " ".data.contains c)).reverse, ?_, ?_, ?_⟩, ?_, ?_⟩
  · unfold Trim
    rw [hm2]
    exact hm
  · intro c hc
    exact (hp c).mp (List.mem_takeWhile_imp hc)
  · intro c hc
    exact (hp c).mp (List.mem_takeWhile_imp (List.mem_reverse.mp hc))
  · intro h
    have := head_dropWhile_not _ _ _ h
    simp at this
  · intro h
    unfold Trim at h
    have h2 : ((s.data.reverse.dropWhile (fun c => " ".data.contains c)).reverse).getLast? =
        some ' ' := by
      rw [← hm2, List.getLast?_append, h]
      rfl
    rw [List.getLast?_reverse] at h2
    have := head_dropWhile_not _ _ _ h2
    simp at this

/-- Every `EventView` of a normal run is the view of a surviving event. -/
theorem groupingLoop_ok_view (parse : String → Option Time) (colors : Colors)
    (filterTime : Time) (items : List Event) (week : List DayData)
    (h : groupingLoop parse colors filterTime items = .ok week) :
    ∀ dv ∈ week, ∀ ev ∈ dv.Events,
      ∃ e ∈ surviving parse filterTime items, e.item ∈ items ∧ ev = e.view colors := by
  intro dv hdv ev hev
  obtain ⟨h1, -⟩ := groupingLoop_ok_events parse colors filterTime items week h
  have hmem : ev ∈ week.flatMap DayData.Events := List.mem_flatMap.mpr ⟨dv, hdv, hev⟩
  rw [h1, List.mem_map] at hmem
  obtain ⟨e, he, rfl⟩ := hmem
  obtain ⟨item, hi, hk⟩ := List.mem_filterMap.mp he
  obtain ⟨-, -, -, k4⟩ := keep_some parse filterTime item e hk
  exact ⟨e, he, k4 ▸ hi, rfl⟩

/-- C6: in a normal run, the caption of every `EventView` is the HTML-escaping
of the title of an input event with its leading and trailing spaces removed:
the title is the trimmed text between two runs of spaces, the trimmed text
neither starts nor ends with a space, the caption contains none of `<`, `>`,
the double and the single quote, and every `&` in it begins an escape entity. -/
theorem caption_is_trimmed_and_escaped (parse : String → Option Time) (colors : Colors)
    (filterTime : Time) (items : List Event) (week : List DayData)
    (h : groupingLoop parse colors filterTime items = .ok week) :
    ∀ dv ∈ week, ∀ ev ∈ dv.Events, ∃ item ∈ items,
      ev.Caption = HTMLEscapeString (Trim item.Summary " ") ∧
      (∃ pre post, item.Summary.data = pre ++ (Trim item.Summary " ").data ++ post ∧
        (∀ c ∈ pre, c = ' ') ∧ (∀ c ∈ post, c = ' ')) ∧
      (Trim item.Summary " ").data.head? ≠ some ' ' ∧
      (Trim item.Summary " ").data.getLast? ≠ some ' ' ∧
      (∀ c ∈ ev.Caption.data, c ≠ '<' ∧ c ≠ '>' ∧ c ≠ '"' ∧ c ≠ '\'') ∧
      ∀ pre suf, ev.Caption.data = pre ++ '&' :: suf → ∃ t ∈ entityTails, t <+: suf := by
  intro dv hdv ev hev
  obtain ⟨e, -, hi, rfl⟩ := groupingLoop_ok_view parse colors filterTime items week h dv hdv ev hev
  obtain ⟨t1, t2, t3⟩ := trim_space_spec e.item.Summary
  refine ⟨e.item, hi, rfl, t1, t2, t3, escape_no_special _, ?_⟩
  exact ampsBeginEntities_spec _ (ampsBeginEntities_escape _)

/-- C6, witness: the title `"  Team Sync  "` is stored as `"Team Sync"`, and a
title with markup is stored escaped. -/
theorem caption_is_trimmed_and_escaped_witness :
    (∀ dv ∈ [(⟨"Понедельник 08.04.2019", "mon",
        [⟨"09:00", "10:00", 540, 600, "Team Sync", "#fff", "#000"⟩], "пн", "08"⟩ : DayData)],
      ∀ ev ∈ dv.Events, ∃ item ∈ exTeamSync,
        ev.Caption = HTMLEscapeString (Trim item.Summary " ") ∧
        (∃ pre post, item.Summary.data = pre ++ (Trim item.Summary " ").data ++ post ∧
          (∀ c ∈ pre, c = ' ') ∧ (∀ c ∈ post, c = ' ')) ∧
        (Trim item.Summary " ").data.head? ≠ some ' ' ∧
        (Trim item.Summary " ").data.getLast? ≠ some ' ' ∧
        (∀ c ∈ ev.Caption.data, c ≠ '<' ∧ c ≠ '>' ∧ c ≠ '"' ∧ c ≠ '\'') ∧
        ∀ pre suf, ev.Caption.data = pre ++ '&' :: suf → ∃ t ∈ entityTails, t <+: suf) ∧
    HTMLEscapeString (Trim "  Team Sync  " " ") = "Team Sync" ∧
    HTMLEscapeString (Trim " <b>Q&A</b> " " ") = "&lt;b&gt;Q&amp;A&lt;/b&gt;" :=
  ⟨caption_is_trimmed_and_escaped parseRFC3339 exColors exFilterTime exTeamSync _ (by decide),
    by decide, by decide⟩

/-- C8: in a normal run, every `EventView` is the view of a surviving event
whose minute offsets are `hour * 60 + minute` of its start and of its end, the
hours being in 0..23 and the minutes in 0..59, so that both offsets lie in
0..1439; the labels are the hour and the minute, each padded to two digits. -/
theorem minute_offsets_in_range (parse : String → Option Time) (colors : Colors)
    (filterTime : Time) (items : List Event) (week : List DayData)
    (h : groupingLoop parse colors filterTime items = .ok week) :
    ∀ dv ∈ week, ∀ ev ∈ dv.Events, ∃ e ∈ surviving parse filterTime items,
      ev.MinsStart = e.start.Hour * 60 + e.start.Minute ∧
      ev.MinsEnd = e.stop.Hour * 60 + e.stop.Minute ∧
      (0 ≤ e.start.Hour ∧ e.start.Hour ≤ 23 ∧ 0 ≤ e.start.Minute ∧ e.start.Minute ≤ 59) ∧
      (0 ≤ e.stop.Hour ∧ e.stop.Hour ≤ 23 ∧ 0 ≤ e.stop.Minute ∧ e.stop.Minute ≤ 59) ∧
      (0 ≤ ev.MinsStart ∧ ev.MinsStart ≤ 1439) ∧ (0 ≤ ev.MinsEnd ∧ ev.MinsEnd ≤ 1439) ∧
      ev.TimeStart = fmtInt 2 e.start.Hour ++ ":" ++ fmtInt 2 e.start.Minute ∧
      ev.TimeEnd = fmtInt 2 e.stop.Hour ++ ":" ++ fmtInt 2 e.stop.Minute := by
  intro dv hdv ev hev
  obtain ⟨e, he, -, rfl⟩ := groupingLoop_ok_view parse colors filterTime items week h dv hdv ev hev
  have h1 := hour_range e.start
  have h2 := minute_range e.start
  have h3 := hour_range e.stop
  have h4 := minute_range e.stop
  refine ⟨e, he, rfl, rfl, ⟨h1.1, h1.2, h2.1, h2.2⟩, ⟨h3.1, h3.2, h4.1, h4.2⟩, ?_, ?_, rfl, rfl⟩
  · simp only [Entry.view, newEvent]; omega
  · simp only [Entry.view, newEvent]; omega

/-- C8, witness: the 09:00 start of the scenario has label `"09:00"` and
minute offset 540. -/
theorem minute_offsets_in_range_witness :
    (∀ dv ∈ [(⟨"Понедельник 08.04.2019", "mon",
          [⟨"09:00", "10:00", 540, 600, "A", "#fff", "#000"⟩], "пн", "08"⟩ : DayData),
        ⟨"Вторник 09.04.2019", "tue",
          [⟨"14:30", "15:00", 870, 900, "B", "#000", "#fff"⟩], "вт", "09"⟩],
      ∀ ev ∈ dv.Events, ∃ e ∈ surviving parseRFC3339 exFilterTime exMonTue,
        ev.MinsStart = e.start.Hour * 60 + e.start.Minute ∧
        ev.MinsEnd = e.stop.Hour * 60 + e.stop.Minute ∧
        (0 ≤ e.start.Hour ∧ e.start.Hour ≤ 23 ∧ 0 ≤ e.start.Minute ∧ e.start.Minute ≤ 59) ∧
        (0 ≤ e.stop.Hour ∧ e.stop.Hour ≤ 23 ∧ 0 ≤ e.stop.Minute ∧ e.stop.Minute ≤ 59) ∧
        (0 ≤ ev.MinsStart ∧ ev.MinsStart ≤ 1439) ∧ (0 ≤ ev.MinsEnd ∧ ev.MinsEnd ≤ 1439) ∧
        ev.TimeStart = fmtInt 2 e.start.Hour ++ ":" ++ fmtInt 2 e.start.Minute ∧
        ev.TimeEnd = fmtInt 2 e.stop.Hour ++ ":" ++ fmtInt 2 e.stop.Minute) ∧
    (surviving parseRFC3339 exFilterTime exMonTue).map
        (fun e => (e.start.Hour, e.start.Minute, (e.view exColors).TimeStart,
          (e.view exColors).MinsStart)) =
      [(9, 0, "09:00", 540), (14, 30, "14:30", 870)] :=
  ⟨minute_offsets_in_range parseRFC3339 exColors exFilterTime exMonTue _ (by decide), by decide⟩

/-! ## The week window -/

theorem lookup_fixedZone (off u : Int) : (FixedZone off).lookup u = off := rfl

theorem add_days (t : Time) (k : Int) (h0 : 0 ≤ t.nsec) (h1 : t.nsec < 1000000000) :
    t.Add (Hour * 24 * k) = ⟨t.sec + 86400 * k, t.nsec, t.loc⟩ := by
  have hd : Hour * 24 * k = 1000000000 * (86400 * k) := by
    unfold Hour Second; ring
  unfold Time.Add
  rw [hd, Int.mul_tdiv_cancel_left _ (by norm_num), Int.mul_tmod_right]
  simp only [add_zero]
  rw [if_neg (by omega), if_neg (by omega)]

theorem civil_month_range (d : Int) :
    1 ≤ (civilFromDays d).2.1 ∧ (civilFromDays d).2.1 ≤ 12 := by
  have h0 : 0 ≤ (d + 719468) % 146097 := Int.emod_nonneg _ (by norm_num)
  have h1 : (d + 719468) % 146097 < 146097 := Int.emod_lt_of_pos _ (by norm_num)
  obtain ⟨-, -, hd0, hd1⟩ := yearOfEra_spec _ h0 h1
  obtain ⟨hm0, hm1, -⟩ := monthOfDay_spec _ hd0 hd1
  exact ⟨hm0, hm1⟩

/-- In a fixed zone, `time.Date` on the civil date of a day gives the local
midnight that starts that day. -/
theorem date_of_civil (d off : Int) :
    Date (civilFromDays d).1 (civilFromDays d).2.1 (civilFromDays d).2.2 0 0 0 0 (FixedZone off)
      = ⟨d * 86400 - off, 0, FixedZone off⟩ := by
  have hm := civil_month_range d
  have hrt := daysFromCivil_civilFromDays d
  unfold Date
  simp only [lookup_fixedZone]
  have e1 : ((civilFromDays d).2.1 - 1) / 12 = 0 := by omega
  have e2 : ((civilFromDays d).2.1 - 1) % 12 + 1 = (civilFromDays d).2.1 := by omega
  simp only [e1, e2, add_zero, hrt]
  simp

/-- In a fixed zone, `syncSchedule` computes the local midnight that starts the
most recent Monday on or before the date of `nw`, whatever the time of day, and
a window end exactly seven days later. -/
theorem weekWindow_fixedZone (nw : Time) (off : Int) (hloc : nw.loc = FixedZone off)
    (h0 : 0 ≤ nw.nsec) (h1 : nw.nsec < 1000000000) :
    (weekWindow nw).1.Weekday = 1 ∧ (weekWindow nw).1.abs % 86400 = 0 ∧
      (weekWindow nw).1.nsec = 0 ∧ (weekWindow nw).1.localDay ≤ nw.localDay ∧
      nw.localDay - (weekWindow nw).1.localDay < 7 ∧
      (weekWindow nw).2.sec - (weekWindow nw).1.sec = 7 * 86400 ∧
      (weekWindow nw).2.nsec = (weekWindow nw).1.nsec := by
  obtain ⟨sec, nsec, loc⟩ := nw
  simp only at hloc h0 h1
  subst hloc
  have hmon : ∀ k : Int,
      Date (Time.Add ⟨sec, nsec, FixedZone off⟩ (Hour * 24 * k)).Year
        (Time.Add ⟨sec, nsec, FixedZone off⟩ (Hour * 24 * k)).Month
        (Time.Add ⟨sec, nsec, FixedZone off⟩ (Hour * 24 * k)).Day 0 0 0 0
        (Time.Add ⟨sec, nsec, FixedZone off⟩ (Hour * 24 * k)).loc =
      ⟨((sec + 86400 * k + off) / 86400) * 86400 - off, 0, FixedZone off⟩ := by
    intro k
    rw [add_days _ k h0 h1]
    simp only [Time.Year, Time.Month, Time.Day, Time.localDay, Time.abs, Time.offset,
      lookup_fixedZone]
    exact date_of_civil _ off
  have hsun : ∀ t : Time, 0 ≤ t.nsec → t.nsec < 1000000000 →
      t.Add (Hour * 24 * 7) = ⟨t.sec + 604800, t.nsec, t.loc⟩ := by
    intro t k0 k1
    rw [add_days t 7 k0 k1]
    norm_num
  unfold weekWindow
  simp only [hmon]
  rw [hsun _ (by simp) (by simp)]
  simp only [Time.Weekday, Time.localDay, Time.abs, Time.offset, lookup_fixedZone, Sunday]
  split_ifs with hs <;> refine ⟨?_, ?_, trivial, ?_, ?_, ?_, trivial⟩ <;> omega

/-- C3, the code at the failing input: on Sunday 2019-11-03 at 23:30 New York
time, `monMidnight` is Tuesday 2019-10-29 00:00, not Monday 2019-10-28, while
at noon of the same Sunday it is Monday 2019-10-28 00:00; in both cases
`sunMidnight` is 604800 seconds after `monMidnight`. -/
theorem weekWindow_wrong_after_clocks_go_back :
    (exSundayNight.Year, exSundayNight.Month, exSundayNight.Day, exSundayNight.Hour,
        exSundayNight.Minute, exSundayNight.Weekday) = (2019, 11, 3, 23, 30, 0) ∧
      ((weekWindow exSundayNight).1.Year, (weekWindow exSundayNight).1.Month,
        (weekWindow exSundayNight).1.Day, (weekWindow exSundayNight).1.Hour,
        (weekWindow exSundayNight).1.Minute, (weekWindow exSundayNight).1.Weekday) =
          (2019, 10, 29, 0, 0, 2) ∧
      (exSundayNoon.Year, exSundayNoon.Month, exSundayNoon.Day, exSundayNoon.Hour,
        exSundayNoon.Minute, exSundayNoon.Weekday) = (2019, 11, 3, 12, 0, 0) ∧
      ((weekWindow exSundayNoon).1.Year, (weekWindow exSundayNoon).1.Month,
        (weekWindow exSundayNoon).1.Day, (weekWindow exSundayNoon).1.Hour,
        (weekWindow exSundayNoon).1.Minute, (weekWindow exSundayNoon).1.Weekday) =
          (2019, 10, 28, 0, 0, 1) ∧
      (weekWindow exSundayNight).2.sec - (weekWindow exSundayNight).1.sec = 604800 ∧
      (weekWindow exSundayNoon).2.sec - (weekWindow exSundayNoon).1.sec = 604800 := by
  refine ⟨?_, ?_, ?_, ?_, ?_, ?_⟩ <;> decide

/-! ## Publishing -/

/-- Publishing puts whatever reached the temporary file at the final path, as
soon as the rename succeeds, whether or not the write reported an error. -/
theorem publish_replaces_artifact (env : Env) (fs : FS) (name : String)
    (weekData : List DayData) (path : String)
    (hr : env.rename (path ++ ".part") path = true) :
    publish env fs name weekData path path =
      some (env.render (path ++ ".part") name weekData).1 := by
  simp [publish, hr, FS.rename, FS.write]

/-- C7, the code at the failing input: the write of the print artifact fails
with nothing written, yet the run completes and the previously published
`out/print.html` is replaced by the empty temporary file. -/
theorem failed_write_is_published :
    (exEnvWriteFails.render "out/print.html.part" "print.html"
        (groupByCalendarDay exColors (surviving parseRFC3339 exFilterTime exMonTue))).2 = true ∧
      exFS "out/print.html" = some "old print" ∧
      (storeSchedule exEnvWriteFails parseRFC3339 exFS exMonTue exColors "out/display.html"
        "out/print.html" exFilterTime).1 "out/print.html" = some "" ∧
      (storeSchedule exEnvWriteFails parseRFC3339 exFS exMonTue exColors "out/display.html"
        "out/print.html" exFilterTime).2 = .completed := by
  decide

end Gcalsync
